import Mathlib

/-!
# Segment controller firmware (`bms.cc`, `bms.hh`, `hal.cc`)

A shallow embedding of the measurement-and-protocol engine of the battery
segment controller: the AFE command exchange, the cell and thermistor samplers,
the two-wire slave handler with its snapshot serializer, and one iteration of
the sleep/wake/measure loop of `app_main`.

Machine integers are natural numbers reduced modulo `2 ^ w` where the C++ type
has width `w`.  The hardware abstraction layer (SPI, I2C, ADC) is a record of
functions over an abstract world `W`, so every theorem quantified over `Hal W`
holds for every behaviour of the peripherals.  Every HAL call is also appended
to a trace, which makes the arguments handed to the peripherals observable.
-/

set_option maxRecDepth 10000

namespace Bms

/-! ## Constants of `bms.cc` -/

/-- Number of ADC samples for the rail measurement. -/
def k_rail_sample_count : Nat := 1024

/-- Number of ADC samples for a cell measurement. -/
def k_cell_sample_count : Nat := 64

/-- Number of ADC samples for a thermistor measurement. -/
def k_thermistor_sample_count : Nat := 8

/-- Cell degraded threshold in ADC counts (`std::uint16_t`). -/
def k_cell_degraded_threshold : Nat := 10

/-- Open cell tap voltage threshold in 100 uV resolution (`std::uint16_t`). -/
def k_cell_open_threshold : Nat := 1000

/-- Maximum number of connected thermistors (`std::uint8_t`). -/
def k_max_thermistor_count : Nat := 23

/-- Thermistor acceptable noise threshold in ADC counts (`std::uint16_t`). -/
def k_thermistor_noise_threshold : Nat := 1500

/-- Thermistor open/short threshold in 100 uV resolution (`std::uint32_t`). -/
def k_thermistor_range_threshold : Nat := 3000

/-- On-board precision voltage reference in 100 uV resolution (`std::uint16_t`). -/
def k_reference_voltage : Nat := 45000

/-- MAX14920 product and die version bits. -/
def k_afe_version_bits : Nat := 0b1010

/-- Status returned by one AFE transaction. -/
inductive AfeStatus
  | Ready
  | NotReady
  | BadSpi
  | Shutdown
  deriving DecidableEq, Repr

/-- TCA9535 I2C registers, with the register addresses of the enum. -/
inductive ExpanderRegister
  | InputPort0
  | InputPort1
  | OutputPort0
  | OutputPort1
  | PolarityPort0
  | PolarityPort1
  | ConfigurationPort0
  | ConfigurationPort1
  deriving DecidableEq, Repr

/-- The `static_cast<std::uint8_t>(reg)` of an expander register. -/
def ExpanderRegister.toByte : ExpanderRegister → Nat
  | .InputPort0 => 0x00
  | .InputPort1 => 0x01
  | .OutputPort0 => 0x02
  | .OutputPort1 => 0x03
  | .PolarityPort0 => 0x04
  | .PolarityPort1 => 0x05
  | .ConfigurationPort0 => 0x06
  | .ConfigurationPort1 => 0x07

/-! ## Pins -/

/-- Ports of `hal::GpioPort`. -/
inductive GpioPort
  | A
  | B
  | C
  | D
  | E
  deriving DecidableEq, Repr

/-- A pin handle `hal::Gpio(port, pin)`. -/
structure Gpio where
  port : GpioPort
  pin : Nat
  deriving DecidableEq, Repr

/-- Input modes used by the firmware. -/
inductive GpioInputMode
  | Floating
  | PullUp
  | PullDown
  deriving DecidableEq, Repr

/-- Output modes used by the firmware. -/
inductive GpioOutputMode
  | PushPull
  | AlternatePushPull
  | AlternateOpenDrain
  deriving DecidableEq, Repr

/-- Output speeds used by the firmware. -/
inductive GpioOutputSpeed
  | Max2
  | Max10
  deriving DecidableEq, Repr

/-- Configuration of one pin as left by `Gpio::configure`. -/
inductive PinConfig
  | input (mode : GpioInputMode)
  | output (mode : GpioOutputMode) (speed : GpioOutputSpeed)
  deriving DecidableEq, Repr

/-- Configuration and output-latch level of one pin. -/
structure PinState where
  config : PinConfig
  level : Bool
  deriving DecidableEq, Repr

def s_address_pins : List Gpio :=
  [⟨.A, 8⟩, ⟨.A, 9⟩, ⟨.A, 10⟩, ⟨.A, 11⟩]

/-- Thermistors connected directly to the STM. -/
def s_mcu_thermistor_enable : List Gpio :=
  [⟨.B, 9⟩, ⟨.B, 8⟩, ⟨.B, 12⟩, ⟨.A, 1⟩, ⟨.A, 2⟩, ⟨.A, 3⟩, ⟨.A, 4⟩]

def s_adc_cs : Gpio := ⟨.A, 5⟩
def s_afe_cs : Gpio := ⟨.A, 7⟩
def s_afe_en : Gpio := ⟨.B, 0⟩
def s_ref_en : Gpio := ⟨.B, 1⟩
def s_led : Gpio := ⟨.B, 5⟩
def s_sck : Gpio := ⟨.B, 13⟩
def s_miso : Gpio := ⟨.B, 14⟩
def s_mosi : Gpio := ⟨.B, 15⟩
def s_scl_1 : Gpio := ⟨.B, 6⟩
def s_sda_1 : Gpio := ⟨.B, 7⟩
def s_scl_2 : Gpio := ⟨.B, 10⟩
def s_sda_2 : Gpio := ⟨.B, 11⟩

/-! ## Hardware abstraction layer -/

/-- Status of a two-wire operation.  The firmware distinguishes `Ok`, `OkRead`
and `OkWrite`; every other enumerator of `hal::I2cStatus` is a failure. -/
inductive I2cStatus
  | Ok
  | OkRead
  | OkWrite
  | Failure (code : Nat)
  deriving DecidableEq, Repr

/-- The two I2C peripherals. -/
inductive I2cBus
  | I2C1
  | I2C2
  deriving DecidableEq, Repr

/-- One call into the hardware abstraction layer, with its arguments. -/
inductive Event
  | delay_us (us : Nat)
  | gpio_configure_input (pin : Gpio) (mode : GpioInputMode)
  | gpio_configure_output (pin : Gpio) (mode : GpioOutputMode) (speed : GpioOutputSpeed)
  | gpio_set (pin : Gpio)
  | gpio_reset (pin : Gpio)
  | spi_transfer (cs : Gpio) (data : Nat × Nat × Nat) (timeout : Nat)
  | spi_init_master
  | sample_voltage (reference count : Nat)
  | i2c_init (bus : I2cBus) (address : Option Nat)
  | i2c_wait_idle (bus : I2cBus)
  | i2c_master_write (bus : I2cBus) (address : Nat) (data : List Nat)
  | i2c_stop (bus : I2cBus)
  | i2c_slave_accept (timeout : Nat)
  | i2c_slave_read (timeout : Nat)
  | i2c_slave_write (bytes : List (Option Nat)) (timeout : Nat)
  | enter_stop_mode
  | peripheral_reset
  deriving DecidableEq, Repr

/-- The peripherals as seen by the firmware: each primitive maps the state of
the outside world and its arguments to an outcome and a new world.  These are
the functions of `hal.hh` and `max_adc.hh` whose bodies are outside the core. -/
structure Hal (W : Type) where
  /-- `hal::spi_transfer(SPI2, cs, data, timeout)` on a three-byte frame: `none`
  when the transfer fails, else the frame as overwritten by the reply (three
  values of type `std::uint8_t`). -/
  spi_transfer : W → Gpio → Nat × Nat × Nat → Nat → Option (Nat × Nat × Nat) × W
  /-- `max_adc::sample_voltage(SPI2, s_adc_cs, reference, count)`: the mean and
  the range of the raw samples (two values of type `std::uint16_t`), or `none`
  on failure. -/
  sample_voltage : W → Nat → Nat → Option (Nat × Nat) × W
  /-- `hal::i2c_wait_idle(bus)`. -/
  i2c_wait_idle : W → I2cBus → I2cStatus × W
  /-- `hal::i2c_master_write(bus, address, data)`. -/
  i2c_master_write : W → I2cBus → Nat → List Nat → I2cStatus × W
  /-- `hal::i2c_stop(bus)`. -/
  i2c_stop : W → I2cBus → W
  /-- `hal::i2c_slave_accept(I2C1, timeout)`. -/
  i2c_slave_accept : W → Nat → I2cStatus × W
  /-- `hal::i2c_slave_read(I2C1, span of one byte, timeout)`: the status and the
  value left in the one-byte buffer (a `std::uint8_t`). -/
  i2c_slave_read : W → Nat → (I2cStatus × Nat) × W
  /-- `hal::i2c_slave_write(I2C1, bytes, timeout)`; a byte the caller never
  wrote is `none`. -/
  i2c_slave_write : W → List (Option Nat) → Nat → I2cStatus × W
  /-- `hal::enter_stop_mode()`: the world when execution resumes. -/
  enter_stop_mode : W → W
  /-- The float expression of `sample_thermistor`,
  `1.0f / (t0 + beta * std::log(float(resistance) / 10000.0f)) - 273.15f` cast to
  `std::int8_t`, as a function of `1 / beta` and the integer resistance.
  Floating-point arithmetic is outside this embedding. -/
  beta_temperature : Nat → Int → Int

/-- State of the node apart from `SegmentData`: the outside world, the pin
latches, and the trace of HAL calls made so far (oldest first). -/
structure Machine (W : Type) where
  world : W
  pins : Gpio → PinState
  trace : List Event

variable {W : Type}

/-- Append one HAL call to the trace. -/
def Machine.emit (m : Machine W) (e : Event) : Machine W :=
  { m with trace := m.trace ++ [e] }

/-- Modelled from the spec: `hal::gpio_set` is declared in `hal.hh`, which is
not part of the sources; it drives the output latch of the pin high. -/
def gpio_set (pin : Gpio) (m : Machine W) : Machine W :=
  { m with
    pins := Function.update m.pins pin { m.pins pin with level := true }
    trace := m.trace ++ [Event.gpio_set pin] }

/-- Modelled from the spec: `hal::gpio_reset` is declared in `hal.hh`, which is
not part of the sources; it drives the output latch of the pin low. -/
def gpio_reset (pin : Gpio) (m : Machine W) : Machine W :=
  { m with
    pins := Function.update m.pins pin { m.pins pin with level := false }
    trace := m.trace ++ [Event.gpio_reset pin] }

/-- `Gpio::configure(GpioInputMode)` of `hal.cc`: program the mode, then set
the latch for a pull-up and reset it for a pull-down. -/
def configure_input (pin : Gpio) (mode : GpioInputMode) (m : Machine W) : Machine W :=
  let m1 : Machine W :=
    { m with
      pins := Function.update m.pins pin { m.pins pin with config := PinConfig.input mode }
      trace := m.trace ++ [Event.gpio_configure_input pin mode] }
  if mode = GpioInputMode.PullUp then gpio_set pin m1
  else if mode = GpioInputMode.PullDown then gpio_reset pin m1
  else m1

/-- `Gpio::configure(GpioOutputMode, GpioOutputSpeed)` of `hal.cc`: program the
mode, then reset the latch. -/
def configure_output (pin : Gpio) (mode : GpioOutputMode) (speed : GpioOutputSpeed)
    (m : Machine W) : Machine W :=
  let m1 : Machine W :=
    { m with
      pins := Function.update m.pins pin { m.pins pin with config := PinConfig.output mode speed }
      trace := m.trace ++ [Event.gpio_configure_output pin mode speed] }
  gpio_reset pin m1

/-- `hal::delay_us(us)` of `hal.cc`: a busy loop without other effect. -/
def delay_us (us : Nat) (m : Machine W) : Machine W :=
  m.emit (Event.delay_us us)

/-! ## AFE link -/

/-- The three-byte frame sent by `afe_command`. -/
def afe_frame (balance_bits control_bits : Nat) : Nat × Nat × Nat :=
  ((balance_bits >>> 8) % 256, balance_bits % 256, control_bits % 256)

/-- `afe_command(balance_bits, control_bits)`. -/
def afe_command (hal : Hal W) (balance_bits control_bits : Nat) (m : Machine W) :
    AfeStatus × Machine W :=
  let data := afe_frame balance_bits control_bits
  let r := hal.spi_transfer m.world s_afe_cs data 1
  let m1 : Machine W := { m with world := r.2, trace := m.trace ++ [Event.spi_transfer s_afe_cs data 1] }
  match r.1 with
  | none => (AfeStatus.BadSpi, m1)
  | some reply =>
    let data2 := reply.2.2
    -- Check version bits are correct.
    if data2 >>> 4 ≠ k_afe_version_bits then (AfeStatus.BadSpi, m1)
    -- Check UVLO and thermal shutdown bits.
    else if data2 &&& 0b1101 ≠ 0 then (AfeStatus.Shutdown, m1)
    -- Check ready bit.
    else if data2 &&& 0b10 ≠ 0 then (AfeStatus.NotReady, m1)
    else (AfeStatus.Ready, m1)

/-! ## Cell sampler -/

/-- The mux codes of `sample_cell_voltage`, one for each cell index. -/
def index_table : List Nat :=
  [0b10000000, 0b11000000, 0b10100000, 0b11100000, 0b10010000, 0b11010000,
   0b10110000, 0b11110000, 0b10001000, 0b11001000, 0b10101000, 0b11101000]

/-- `sample_cell_voltage(index)`: the voltage and the degraded flag, or `none`. -/
def sample_cell_voltage (hal : Hal W) (index : Nat) (m : Machine W) :
    Option (Nat × Bool) × Machine W :=
  -- Select cell for output on AOUT in hold mode.
  let a := afe_command hal 0 (index_table.getD index 0 ||| 0b100) m
  if a.1 ≠ AfeStatus.Ready then (none, a.2)
  else
    let r := hal.sample_voltage a.2.world k_reference_voltage k_cell_sample_count
    let m1 : Machine W :=
      { a.2 with
        world := r.2
        trace := a.2.trace ++ [Event.sample_voltage k_reference_voltage k_cell_sample_count] }
    match r.1 with
    | none => (none, m1)
    | some (voltage, adc_range) =>
      if voltage < k_cell_open_threshold ∨
          voltage > k_reference_voltage - k_cell_open_threshold then
        -- Cell tap is bad.
        (none, m1)
      else
        (some (voltage % 65536, decide (adc_range > k_cell_degraded_threshold)), m1)

/-! ## Expander driver and thermistor sampler -/

/-- `set_expander_register(reg, value)`; `value` is narrowed to a byte. -/
def set_expander_register (hal : Hal W) (reg : ExpanderRegister) (value : Nat)
    (m : Machine W) : I2cStatus × Machine W :=
  let data := [reg.toByte, value % 256]
  let r1 := hal.i2c_wait_idle m.world I2cBus.I2C2
  let m1 : Machine W :=
    { m with world := r1.2, trace := m.trace ++ [Event.i2c_wait_idle I2cBus.I2C2] }
  if r1.1 ≠ I2cStatus.Ok then (r1.1, m1)
  else
    let r2 := hal.i2c_master_write m1.world I2cBus.I2C2 0x20 data
    let m2 : Machine W :=
      { m1 with
        world := r2.2
        trace := m1.trace ++ [Event.i2c_master_write I2cBus.I2C2 0x20 data] }
    if r2.1 ≠ I2cStatus.Ok then (r2.1, m2)
    else
      (I2cStatus.Ok,
        { m2 with
          world := hal.i2c_stop m2.world I2cBus.I2C2
          trace := m2.trace ++ [Event.i2c_stop I2cBus.I2C2] })

/-- The enable step of `sample_thermistor` (lines 166-180): `false` when the
expander write failed. -/
def thermistor_enable (hal : Hal W) (configuration_register : ExpanderRegister)
    (index : Nat) (m : Machine W) : Bool × Machine W :=
  if index < s_mcu_thermistor_enable.length then
    -- Pull the MCU pin high.
    let pin := s_mcu_thermistor_enable.getD index ⟨GpioPort.A, 0⟩
    (true, gpio_set pin
      (configure_output pin GpioOutputMode.PushPull GpioOutputSpeed.Max2 m))
  else
    let pin_index := (index + 2 ^ 32 - s_mcu_thermistor_enable.length) % 2 ^ 32
    let pin_bit :=
      if configuration_register = ExpanderRegister.ConfigurationPort0 then pin_index
      else (15 + 2 ^ 32 - pin_index) % 2 ^ 32
    let r := set_expander_register hal configuration_register
      (2 ^ 32 - 1 - (1 <<< pin_bit) % 2 ^ 32) m
    (decide (r.1 = I2cStatus.Ok), r.2)

/-- The disable step of `sample_thermistor` (lines 194-201): `false` when the
expander write failed. -/
def thermistor_disable (hal : Hal W) (configuration_register : ExpanderRegister)
    (index : Nat) (m : Machine W) : Bool × Machine W :=
  if index < s_mcu_thermistor_enable.length then
    -- Reconfigure MCU pin to high impedance.
    let pin := s_mcu_thermistor_enable.getD index ⟨GpioPort.A, 0⟩
    (true, configure_input pin GpioInputMode.Floating m)
  else
    let r := set_expander_register hal configuration_register 0xff m
    (decide (r.1 = I2cStatus.Ok), r.2)

/-- `sample_thermistor(rail_voltage, index)`: the temperature, or `none`. -/
def sample_thermistor (hal : Hal W) (rail_voltage index : Nat) (m : Machine W) :
    Option Int × Machine W :=
  let configuration_register :=
    if index ≥ s_mcu_thermistor_enable.length + 8 then ExpanderRegister.ConfigurationPort1
    else ExpanderRegister.ConfigurationPort0
  -- Enable the thermistor.
  let e := thermistor_enable hal configuration_register index m
  if e.1 = false then (none, e.2)
  else
    -- Allow some settling time.
    let m1 := delay_us 5 e.2
    -- Sample the voltage on the ADC.
    let r := hal.sample_voltage m1.world k_reference_voltage k_thermistor_sample_count
    let m2 : Machine W :=
      { m1 with
        world := r.2
        trace := m1.trace ++ [Event.sample_voltage k_reference_voltage k_thermistor_sample_count] }
    match r.1 with
    | none => (none, m2)
    | some (sampled, adc_range) =>
      let voltage := min sampled rail_voltage
      -- Disable the thermistor.
      let d := thermistor_disable hal configuration_register index m2
      if d.1 = false then (none, d.2)
      -- Check if the voltage measurement is viable (unsigned 32-bit comparison).
      else if voltage < k_thermistor_range_threshold ∨
          voltage > (rail_voltage + 2 ^ 32 - k_thermistor_range_threshold) % 2 ^ 32 then
        (none, d.2)
      -- Check if the voltage measurement is too noisy.
      else if adc_range > k_thermistor_noise_threshold then (none, d.2)
      else
        -- Thermistor is connected, so we can calculate the temperature.
        let resistance : Int :=
          Int.tdiv ((rail_voltage : Int) * 10000) (voltage : Int) - 10000
        let beta_inv : Nat := if index < 3 then 3350 else 3950
        (some (hal.beta_temperature beta_inv resistance), d.2)

/-! ## Data model (`bms.hh`) -/

/-- `enum class Command : std::uint8_t`: a value of the enum type is any byte;
the four enumerators are named below. -/
structure Command where
  raw : Nat
  deriving DecidableEq, Repr

def Command.Disable : Command := ⟨0x10⟩
def Command.Enable : Command := ⟨0x20⟩
def Command.MeasureRail : Command := ⟨0x30⟩
def Command.Sample : Command := ⟨0x40⟩

/-- `struct SegmentData`. -/
structure SegmentData where
  /-- `std::uint32_t`. -/
  thermistor_bitset : Nat
  /-- `std::uint16_t`. -/
  cell_tap_bitset : Nat
  /-- `std::uint16_t`. -/
  degraded_bitset : Nat
  /-- `std::uint16_t`, 3V3 rail voltage in 100 uV resolution. -/
  rail_voltage : Nat
  /-- `std::array<std::uint16_t, 12>`. -/
  voltages : Fin 12 → Nat
  /-- `std::array<std::int8_t, 23>`. -/
  temperatures : Fin 23 → Int

/-- The value-initialised `bms::SegmentData data{}` of `app_main`. -/
def SegmentData.boot : SegmentData :=
  { thermistor_bitset := 0
    cell_tap_bitset := 0
    degraded_bitset := 0
    rail_voltage := 0
    voltages := fun _ => 0
    temperatures := fun _ => 0 }

/-- The assignment `a[index] = value` on a `std::array` of `n` elements. -/
def array_set {α : Type} {n : Nat} (a : Fin n → α) (index : Nat) (value : α) : Fin n → α :=
  fun k => if k.val = index then value else a k

/-- Size and alignment of the members of `SegmentData`, in declaration order. -/
def segment_data_members : List (Nat × Nat) :=
  [(4, 4), (2, 2), (2, 2), (2, 2), (12 * 2, 2), (23 * 1, 1)]

/-- Round `offset` up to a multiple of `alignment`. -/
def align_up (offset alignment : Nat) : Nat :=
  (offset + alignment - 1) / alignment * alignment

/-- Size of a standard-layout struct: every member at the next offset that is a
multiple of its alignment, the total rounded up to the largest alignment. -/
def struct_size (members : List (Nat × Nat)) : Nat :=
  align_up (members.foldl (fun offset f => align_up offset f.2 + f.1) 0)
    (members.foldl (fun a f => max a f.2) 1)

/-- The `sizeof(bms::SegmentData)` that sizes the transmit buffer. -/
def sizeof_SegmentData : Nat := struct_size segment_data_members

/-! ## Bus protocol handler -/

/-- Modelled from the spec: `util::write_be` is declared in `util.hh`, which is
not part of the sources; the snapshot is a big-endian byte stream, so the value
of `width` bytes is emitted most significant byte first. -/
def write_be (width value : Nat) : List Nat :=
  (List.range width).map (fun k => (value >>> (8 * (width - 1 - k))) % 256)

/-- The `append_value` lambda of `i2c_check`: copy the bytes of `value` to the
iterator and advance it.  The state is the buffer and the iterator offset. -/
def append_value (width value : Nat) (s : List (Option Nat) × Nat) :
    List (Option Nat) × Nat :=
  (write_be width value).foldl (fun s b => (s.1.set s.2 (some b), s.2 + 1)) s

/-- The conversion of a `std::int8_t` to `std::uint8_t`. -/
def int8_to_uint8 (t : Int) : Nat := (t % 256).toNat

/-- Lines 243-258 of `i2c_check`: the buffer of `sizeof(bms::SegmentData)`
bytes, initially unwritten, after the serializer ran, and the final iterator. -/
def segment_bytes (data : SegmentData) : List (Option Nat) × Nat :=
  let s0 : List (Option Nat) × Nat := (List.replicate sizeof_SegmentData none, 0)
  let s1 := append_value 4 data.thermistor_bitset s0
  let s2 := append_value 2 data.cell_tap_bitset s1
  let s3 := append_value 2 data.degraded_bitset s2
  let s4 := append_value 2 data.rail_voltage s3
  let s5 := (List.ofFn data.voltages).foldl (fun s voltage => append_value 2 voltage s) s4
  (List.ofFn data.temperatures).foldl
    (fun s temperature => (s.1.set s.2 (some (int8_to_uint8 temperature)), s.2 + 1)) s5

/-- `i2c_check(data, timeout)`. -/
def i2c_check (hal : Hal W) (data : SegmentData) (timeout : Nat) (m : Machine W) :
    Option Command × Machine W :=
  let a := hal.i2c_slave_accept m.world timeout
  let m1 : Machine W :=
    { m with world := a.2, trace := m.trace ++ [Event.i2c_slave_accept timeout] }
  if a.1 ≠ I2cStatus.OkRead ∧ a.1 ≠ I2cStatus.OkWrite then (none, m1)
  else if a.1 = I2cStatus.OkRead then
    -- Receive the command byte.
    let r := hal.i2c_slave_read m1.world 1
    let m2 : Machine W :=
      { m1 with world := r.2, trace := m1.trace ++ [Event.i2c_slave_read 1] }
    if r.1.1 ≠ I2cStatus.Ok then (none, m2)
    else (some (Command.mk r.1.2), m2)
  else
    -- Otherwise the master wants our data.
    let bytes := (segment_bytes data).1
    let w := hal.i2c_slave_write m1.world bytes 1
    (none, { m1 with world := w.2, trace := m1.trace ++ [Event.i2c_slave_write bytes 1] })

/-! ## Control loop -/

/-- The I2C address computed from the input data register of port A:
`0x40u | ~(GPIOA->IDR >> 8u) & 0xfu`. -/
def i2c_address (idr : Nat) : Nat :=
  0x40 ||| ((2 ^ 32 - 1 - (idr % 2 ^ 32) >>> 8) &&& 0xf)

/-- Lines 375-377: poll the AFE until it no longer reports `NotReady`.  The loop
has no bound in the source; `fuel` bounds the number of polls, and `none` means
the AFE was still not ready after `fuel` polls. -/
def afe_startup_poll (hal : Hal W) : Nat → Machine W → Option (Machine W)
  | 0, _ => none
  | fuel + 1, m =>
    let r := afe_command hal 0 0b00111000 m
    if r.1 = AfeStatus.NotReady then afe_startup_poll hal fuel r.2 else some r.2

/-- Lines 379-389: the `MeasureRail` branch. -/
def measure_rail (hal : Hal W) (data : SegmentData) (m : Machine W) :
    SegmentData × Machine W :=
  let r := hal.sample_voltage m.world k_reference_voltage k_rail_sample_count
  let m1 : Machine W :=
    { m with
      world := r.2
      trace := m.trace ++ [Event.sample_voltage k_reference_voltage k_rail_sample_count] }
  let data1 : SegmentData :=
    match r.1 with
    | some (voltage, _) => { data with rail_voltage := voltage % 65536 }
    | none => data
  -- TODO: This is broken in hardware revision D.
  ({ data1 with rail_voltage := 33330 }, m1)

/-- One iteration of the thermistor loop (lines 395-400). -/
def thermistor_step (hal : Hal W) (s : SegmentData × Machine W) (index : Nat) :
    SegmentData × Machine W :=
  let r := sample_thermistor hal s.1.rail_voltage index s.2
  match r.1 with
  | some temperature =>
    -- Temperature reading is viable.
    ({ s.1 with
        thermistor_bitset := (s.1.thermistor_bitset ||| (1 <<< index) % 2 ^ 32) % 2 ^ 32
        temperatures := array_set s.1.temperatures index temperature }, r.2)
  | none => (s.1, r.2)

/-- Lines 392-401: clear the thermistor data and sample channels
`0 .. k_max_thermistor_count - 1` in ascending order. -/
def sample_thermistors (hal : Hal W) (data : SegmentData) (m : Machine W) :
    SegmentData × Machine W :=
  let data0 : SegmentData :=
    { data with thermistor_bitset := 0, temperatures := fun _ => 0 }
  (List.range k_max_thermistor_count).foldl (thermistor_step hal) (data0, m)

/-- One iteration of the cell loop (lines 413-422). -/
def cell_step (hal : Hal W) (s : SegmentData × Machine W) (index : Nat) :
    SegmentData × Machine W :=
  let r := sample_cell_voltage hal index s.2
  match r.1 with
  | some sample =>
    -- AFE is working and cell tap is connected.
    let data1 : SegmentData :=
      { s.1 with
        cell_tap_bitset := (s.1.cell_tap_bitset ||| (1 <<< index) % 2 ^ 32) % 2 ^ 16
        voltages := array_set s.1.voltages index sample.1 }
    if sample.2 then
      ({ data1 with
          degraded_bitset := (data1.degraded_bitset ||| (1 <<< index) % 2 ^ 32) % 2 ^ 16 }, r.2)
    else (data1, r.2)
  | none => (s.1, r.2)

/-- The loop `for (std::size_t cell = 12; cell > 0; cell--)` of lines 412-423,
entered with the given value of `cell`; the index sampled is `cell - 1`. -/
def cell_loop (hal : Hal W) : Nat → SegmentData × Machine W → SegmentData × Machine W
  | 0, s => s
  | cell + 1, s => cell_loop hal cell (cell_step hal s ((cell + 1 - 1) % 256))

/-- Lines 406-423: clear the cell data and sample the cells from 11 down to 0. -/
def sample_cells (hal : Hal W) (data : SegmentData) (m : Machine W) :
    SegmentData × Machine W :=
  let data0 : SegmentData :=
    { data with cell_tap_bitset := 0, degraded_bitset := 0, voltages := fun _ => 0 }
  cell_loop hal 12 (data0, m)

/-- Lines 391-426: the `Sample` branch. -/
def sample_all (hal : Hal W) (data : SegmentData) (m : Machine W) :
    SegmentData × Machine W :=
  -- Sample all thermistors.
  let t := sample_thermistors hal data m
  -- Give a bit more time for the cell voltages to sample just in case.
  let m1 := delay_us 1000 t.2
  -- Sample all cells in order of most potential to least potential.
  let c := sample_cells hal t.1 m1
  -- Put the AFE into diagnostic mode.
  (c.1, (afe_command hal 0 0b01011010 c.2).2)

/-- Lines 298-340 of the loop body: the poll before sleeping, the stop mode, and
the bounded accept after the wake-up; the command obtained and the machine. -/
def await_command (hal : Hal W) (address : Nat) (data : SegmentData) (m : Machine W) :
    Option Command × Machine W :=
  -- Wait a bit to allow a repeated start to be captured.
  let m := delay_us 100 m
  let m := (i2c_check hal data 0 m).2
  -- Reconfigure SCK and MOSI as regular GPIOs before going to sleep.
  let m := configure_output s_sck GpioOutputMode.PushPull GpioOutputSpeed.Max2 m
  let m := configure_output s_mosi GpioOutputMode.PushPull GpioOutputSpeed.Max2 m
  -- Pull CS lines high by default and put the ADC into shutdown.
  let m := gpio_set s_sck (gpio_set s_afe_cs (gpio_set s_adc_cs m))
  let m := gpio_reset s_adc_cs m
  let m := gpio_set s_adc_cs m
  -- Reconfigure SCL and SDA as regular inputs and enter stop mode.
  let m := [s_scl_1, s_sda_1, s_scl_2, s_sda_2].foldl
    (fun m pin => configure_input pin GpioInputMode.Floating m) m
  let m : Machine W :=
    { m with world := hal.enter_stop_mode m.world, trace := m.trace ++ [Event.enter_stop_mode] }
  -- Configure SCL and SDA for use with the I2C peripheral.
  let m := [s_scl_1, s_sda_1, s_scl_2, s_sda_2].foldl
    (fun m pin =>
      configure_output pin GpioOutputMode.AlternateOpenDrain GpioOutputSpeed.Max2 m) m
  -- Reset the I2C and SPI peripherals, then configure the I2C peripherals.
  let m := m.emit Event.peripheral_reset
  let m := m.emit (Event.i2c_init I2cBus.I2C1 (some address))
  let m := m.emit (Event.i2c_init I2cBus.I2C2 none)
  -- Wait a maximum of 10 ms for address match.
  let c := i2c_check hal data 10 m
  -- Make sure GPIO expander is in a good state.
  let m := (set_expander_register hal ExpanderRegister.OutputPort0 0xff c.2).2
  let m := (set_expander_register hal ExpanderRegister.OutputPort1 0xff m).2
  let m := (set_expander_register hal ExpanderRegister.PolarityPort0 0x00 m).2
  let m := (set_expander_register hal ExpanderRegister.PolarityPort1 0x00 m).2
  let m := (set_expander_register hal ExpanderRegister.ConfigurationPort0 0xff m).2
  let m := (set_expander_register hal ExpanderRegister.ConfigurationPort1 0xff m).2
  (c.1, m)

/-- Lines 363-372: wake the ADC and bring up SPI2. -/
def wake_adc (m : Machine W) : Machine W :=
  let m := gpio_reset s_adc_cs (gpio_reset s_sck m)
  let m := gpio_set s_afe_cs (gpio_set s_adc_cs m)
  let m := configure_output s_sck GpioOutputMode.AlternatePushPull GpioOutputSpeed.Max10 m
  let m := configure_output s_mosi GpioOutputMode.AlternatePushPull GpioOutputSpeed.Max10 m
  m.emit Event.spi_init_master

/-- One iteration of the `while (true)` loop of `app_main` (lines 297-427).
`fuel` bounds the AFE start-up poll; `none` means that poll did not finish. -/
def wake_cycle (hal : Hal W) (address fuel : Nat) (data : SegmentData) (m : Machine W) :
    Option (SegmentData × Machine W) :=
  let c := await_command hal address data m
  match c.1 with
  | none =>
    -- Data not for us or spurious wakeup - go back to sleep.
    some (data, c.2)
  | some command =>
    if command = Command.Enable then
      some (data, gpio_set s_ref_en (gpio_set s_afe_en c.2))
    else if command = Command.Disable then
      some (data, gpio_reset s_ref_en (gpio_reset s_afe_en c.2))
    else if command = Command.MeasureRail ∨ command = Command.Sample then
      match afe_startup_poll hal fuel (wake_adc c.2) with
      | none => none
      | some m1 =>
        if command = Command.MeasureRail then some (measure_rail hal data m1)
        else some (sample_all hal data m1)
    else
      -- Bad request.
      some (data, c.2)

/-- The states of `SegmentData` at the top of the loop of `app_main`: the boot
value, and every value left by an iteration that started from such a value, for
any peripherals, any machine state and any bound on the start-up poll. -/
inductive Reachable : SegmentData → Prop
  | boot : Reachable SegmentData.boot
  | cycle {W : Type} (hal : Hal W) (address fuel : Nat) (data : SegmentData)
      (m : Machine W) (out : SegmentData × Machine W) :
      Reachable data → wake_cycle hal address fuel data m = some out → Reachable out.1

/-! ## Reference descriptions

Definitions that follow the wording of the specification; the theorems below
compare them with the definitions translated from the code. -/

/-- The snapshot as the specification lays it out: the fields in declaration
order, each multi-byte field most significant byte first, the cell voltages and
the temperatures in index order. -/
def snapshot_stream (d : SegmentData) : List Nat :=
  write_be 4 d.thermistor_bitset ++ write_be 2 d.cell_tap_bitset ++
    write_be 2 d.degraded_bitset ++ write_be 2 d.rail_voltage ++
    (List.ofFn d.voltages).flatMap (write_be 2) ++
    (List.ofFn d.temperatures).map int8_to_uint8

/-- The machine in which thermistor channel `j` is sampled when the channels
`0, 1, .., j - 1` have each been sampled once before it, in ascending order,
starting from machine `m`. -/
def thermistor_machine_before (hal : Hal W) (rail_voltage : Nat) (m : Machine W) (j : Nat) :
    Machine W :=
  (List.range j).foldl (fun m k => (sample_thermistor hal rail_voltage k m).2) m

/-- The outcome of sampling thermistor channel `j` in its turn. -/
def thermistor_result (hal : Hal W) (rail_voltage : Nat) (m : Machine W) (j : Nat) :
    Option Int :=
  (sample_thermistor hal rail_voltage j (thermistor_machine_before hal rail_voltage m j)).1

/-- The machine after the first `n` cells of the descending order
`11, 10, .., 0` have each been sampled once, starting from machine `m`. -/
def cell_machine_after (hal : Hal W) (m : Machine W) (n : Nat) : Machine W :=
  ((List.range n).map (fun k => 11 - k)).foldl (fun m k => (sample_cell_voltage hal k m).2) m

/-- The outcome of sampling cell `i` in its turn, after the cells
`11, 10, .., i + 1`. -/
def cell_result (hal : Hal W) (m : Machine W) (i : Nat) : Option (Nat × Bool) :=
  (sample_cell_voltage hal i (cell_machine_after hal m (11 - i))).1

/-- The expander configuration register that carries the enable line of a
thermistor channel 7 .. 22: port 0 for the channels 7 .. 14, port 1 for 15 .. 22. -/
def enable_register (channel : Nat) : ExpanderRegister :=
  if channel < 15 then ExpanderRegister.ConfigurationPort0
  else ExpanderRegister.ConfigurationPort1

/-- The bit of the configuration register that enables a thermistor channel
7 .. 22: ascending on port 0 (channel `7 + k` is bit `k`), descending on port 1
(pin `15 - (channel - 7)`). -/
def enable_bit (channel : Nat) : Nat :=
  if channel < 15 then channel - 7 else 15 - (channel - 7)

/-- Whether a HAL call is a two-wire master write. -/
def Event.is_master_write : Event → Bool
  | Event.i2c_master_write _ _ _ => true
  | _ => false

/-- The two-wire master writes of a trace, in order.  The expander is the only
device the firmware writes to as a master. -/
def master_writes (trace : List Event) : List Event :=
  trace.filter Event.is_master_write

/-! ## Test peripherals

A small family of peripherals over the world `Unit`, used to evaluate the
definitions on concrete inputs. -/

/-- Peripherals whose answers are fixed: the AFE reply byte (or a failed
transfer), the ADC result, and the outcome of the slave accept and read. -/
def fixed_hal (reply : Option Nat) (adc : Option (Nat × Nat)) (accept : I2cStatus)
    (read : I2cStatus × Nat) : Hal Unit :=
  { spi_transfer := fun _ _ _ _ => (reply.map (fun b => (0, 0, b)), ())
    sample_voltage := fun _ _ _ => (adc, ())
    i2c_wait_idle := fun _ _ => (I2cStatus.Ok, ())
    i2c_master_write := fun _ _ _ _ => (I2cStatus.Ok, ())
    i2c_stop := fun _ _ => ()
    i2c_slave_accept := fun _ _ => (accept, ())
    i2c_slave_read := fun _ _ => (read, ())
    i2c_slave_write := fun _ _ _ => (I2cStatus.Ok, ())
    enter_stop_mode := fun _ => ()
    beta_temperature := fun _ _ => 25 }

/-- Peripherals over a world that counts the ADC reads: the AFE is always
ready, every even-numbered read returns 1.6665 V with a range of 12 counts,
every odd-numbered read returns 0.01 V, and the master sends `command`. -/
def alternating_hal (command : Nat) : Hal Nat :=
  { spi_transfer := fun w _ _ _ => (some (0, 0, 0xA0), w)
    sample_voltage := fun w _ _ =>
      (if w % 2 = 0 then some (16665, 12) else some (100, 5), w + 1)
    i2c_wait_idle := fun w _ => (I2cStatus.Ok, w)
    i2c_master_write := fun w _ _ _ => (I2cStatus.Ok, w)
    i2c_stop := fun w _ => w
    i2c_slave_accept := fun w _ => (I2cStatus.OkRead, w)
    i2c_slave_read := fun w _ => ((I2cStatus.Ok, command), w)
    i2c_slave_write := fun w _ _ => (I2cStatus.Ok, w)
    enter_stop_mode := fun w => w
    beta_temperature := fun _ _ => 25 }

/-- A machine over the counting world with every pin a floating input, an empty
trace and no ADC read made yet. -/
def counting_machine : Machine Nat :=
  { world := 0
    pins := fun _ => { config := PinConfig.input GpioInputMode.Floating, level := false }
    trace := [] }

/-- The state after one `MeasureRail` iteration from boot, with the alternating
peripherals. -/
def measured_state : SegmentData × Machine Nat :=
  measure_rail (alternating_hal 0x30) SegmentData.boot
    (afe_command (alternating_hal 0x30) 0 0b00111000
      (wake_adc (await_command (alternating_hal 0x30) 0x40 SegmentData.boot
        counting_machine).2)).2

/-- The state after a `Sample` iteration that follows `measured_state`. -/
def sampled_state : SegmentData × Machine Nat :=
  sample_all (alternating_hal 0x40) measured_state.1
    (afe_command (alternating_hal 0x40) 0 0b00111000
      (wake_adc (await_command (alternating_hal 0x40) 0x40 measured_state.1
        measured_state.2).2)).2

/-- Peripherals with a fixed ADC result whose temperature expression returns
the resistance it is given, which makes the resistance observable. -/
def resistance_hal (adc : Option (Nat × Nat)) : Hal Unit :=
  { spi_transfer := fun _ _ _ _ => (none, ())
    sample_voltage := fun _ _ _ => (adc, ())
    i2c_wait_idle := fun _ _ => (I2cStatus.Ok, ())
    i2c_master_write := fun _ _ _ _ => (I2cStatus.Ok, ())
    i2c_stop := fun _ _ => ()
    i2c_slave_accept := fun _ _ => (I2cStatus.Ok, ())
    i2c_slave_read := fun _ _ => ((I2cStatus.Ok, 0), ())
    i2c_slave_write := fun _ _ _ => (I2cStatus.Ok, ())
    enter_stop_mode := fun _ => ()
    beta_temperature := fun _ resistance => resistance }

/-- A machine with every pin a floating input and an empty trace. -/
def idle_machine : Machine Unit :=
  { world := ()
    pins := fun _ => { config := PinConfig.input GpioInputMode.Floating, level := false }
    trace := [] }

/-- A snapshot with distinct values in every field. -/
def sample_segment : SegmentData :=
  { thermistor_bitset := 0x00400005
    cell_tap_bitset := 0x0801
    degraded_bitset := 0x0800
    rail_voltage := 33330
    voltages := fun i => 30000 + i.val
    temperatures := fun j => (j.val : Int) - 5 }

/-! ## AFE link -/

/-- A byte whose top nibble is the version tag lies in `0xA0 .. 0xAF`. -/
theorem version_nibble_range (b : Nat) (h : b >>> 4 = 0b1010) : 160 ≤ b ∧ b ≤ 175 := by
  rw [Nat.shiftRight_eq_div_pow] at h
  omega

/-- C1: `afe_command` returns `BadSpi` when the transfer fails; otherwise, with
`b` the third byte of the reply, `BadSpi` when `b >> 4` is not `0b1010`, else
`Shutdown` when `b & 0b1101` is non-zero, else `NotReady` when `b & 0b10` is
non-zero, else (and then `b = 0xA0`) `Ready`. -/
theorem afe_command_status (hal : Hal W) (balance_bits control_bits : Nat) (m : Machine W) :
    (∀ w, hal.spi_transfer m.world s_afe_cs (afe_frame balance_bits control_bits) 1 = (none, w) →
      (afe_command hal balance_bits control_bits m).1 = AfeStatus.BadSpi) ∧
    (∀ r0 r1 b w,
      hal.spi_transfer m.world s_afe_cs (afe_frame balance_bits control_bits) 1
        = (some (r0, r1, b), w) →
      (b >>> 4 ≠ 0b1010 →
        (afe_command hal balance_bits control_bits m).1 = AfeStatus.BadSpi) ∧
      (b >>> 4 = 0b1010 → b &&& 0b1101 ≠ 0 →
        (afe_command hal balance_bits control_bits m).1 = AfeStatus.Shutdown) ∧
      (b >>> 4 = 0b1010 → b &&& 0b1101 = 0 → b &&& 0b10 ≠ 0 →
        (afe_command hal balance_bits control_bits m).1 = AfeStatus.NotReady) ∧
      (b >>> 4 = 0b1010 → b &&& 0b1101 = 0 → b &&& 0b10 = 0 →
        b = 0xA0 ∧ (afe_command hal balance_bits control_bits m).1 = AfeStatus.Ready)) := by
  refine ⟨?_, ?_⟩
  · intro w h
    simp [afe_command, h]
  · intro r0 r1 b w h
    refine ⟨?_, ?_, ?_, ?_⟩
    · intro hv
      simp [afe_command, h, k_afe_version_bits, hv]
    · intro hv hs
      simp [afe_command, h, k_afe_version_bits, hv, hs]
    · intro hv hs hr
      simp [afe_command, h, k_afe_version_bits, hv, hs, hr]
    · intro hv hs hr
      refine ⟨?_, ?_⟩
      · obtain ⟨hlo, hhi⟩ := version_nibble_range b hv
        interval_cases b <;> first | rfl | (exfalso; revert hs hr; decide)
      · simp [afe_command, h, k_afe_version_bits, hv, hs, hr]

/-- Witness for C1: a failed transfer gives `BadSpi`, and the replies `0x5F`,
`0xA4`, `0xA2`, `0xA0` give `BadSpi`, `Shutdown`, `NotReady`, `Ready`. -/
theorem afe_command_status_witness :
    (afe_command (fixed_hal none none I2cStatus.Ok (I2cStatus.Ok, 0)) 0 0 idle_machine).1
        = AfeStatus.BadSpi ∧
    (afe_command (fixed_hal (some 0x5F) none I2cStatus.Ok (I2cStatus.Ok, 0)) 0 0 idle_machine).1
        = AfeStatus.BadSpi ∧
    (afe_command (fixed_hal (some 0xA4) none I2cStatus.Ok (I2cStatus.Ok, 0)) 0 0 idle_machine).1
        = AfeStatus.Shutdown ∧
    (afe_command (fixed_hal (some 0xA2) none I2cStatus.Ok (I2cStatus.Ok, 0)) 0 0 idle_machine).1
        = AfeStatus.NotReady ∧
    (afe_command (fixed_hal (some 0xA0) none I2cStatus.Ok (I2cStatus.Ok, 0)) 0 0 idle_machine).1
        = AfeStatus.Ready :=
  ⟨(afe_command_status (fixed_hal none none I2cStatus.Ok (I2cStatus.Ok, 0)) 0 0
      idle_machine).1 () rfl,
   ((afe_command_status (fixed_hal (some 0x5F) none I2cStatus.Ok (I2cStatus.Ok, 0)) 0 0
      idle_machine).2 0 0 0x5F () rfl).1 (by decide),
   ((afe_command_status (fixed_hal (some 0xA4) none I2cStatus.Ok (I2cStatus.Ok, 0)) 0 0
      idle_machine).2 0 0 0xA4 () rfl).2.1 (by decide) (by decide),
   ((afe_command_status (fixed_hal (some 0xA2) none I2cStatus.Ok (I2cStatus.Ok, 0)) 0 0
      idle_machine).2 0 0 0xA2 () rfl).2.2.1 (by decide) (by decide) (by decide),
   (((afe_command_status (fixed_hal (some 0xA0) none I2cStatus.Ok (I2cStatus.Ok, 0)) 0 0
      idle_machine).2 0 0 0xA0 () rfl).2.2.2 (by decide) (by decide) (by decide)).2⟩

/-! ## Bus protocol handler: the serializer -/

theorem write_be_length (width value : Nat) : (write_be width value).length = width := by
  simp [write_be]

theorem write_be_four (v : Nat) :
    write_be 4 v = [v / 2 ^ 24 % 256, v / 2 ^ 16 % 256, v / 2 ^ 8 % 256, v % 256] := by
  simp [write_be, List.range_succ, Nat.shiftRight_eq_div_pow]

theorem write_be_two (v : Nat) : write_be 2 v = [v / 2 ^ 8 % 256, v % 256] := by
  simp [write_be, List.range_succ, Nat.shiftRight_eq_div_pow]

/-- Writing at the iterator when the buffer is a written prefix followed by
unwritten bytes extends the prefix by one byte. -/
theorem put_written (pre : List Nat) (total b : Nat) (h : 0 < total) :
    (pre.map some ++ List.replicate total none).set pre.length (some b)
      = (pre ++ [b]).map some ++ List.replicate (total - 1) none := by
  obtain ⟨n, rfl⟩ : ∃ n, total = n + 1 := ⟨total - 1, by omega⟩
  rw [List.set_append_right _ _ (by simp)]
  simp [List.replicate_succ]

/-- The `std::copy` of a byte list to the iterator. -/
theorem copy_written (bs pre : List Nat) (total : Nat) (h : bs.length ≤ total) :
    bs.foldl (fun (s : List (Option Nat) × Nat) b => (s.1.set s.2 (some b), s.2 + 1))
        (pre.map some ++ List.replicate total none, pre.length)
      = ((pre ++ bs).map some ++ List.replicate (total - bs.length) none,
          pre.length + bs.length) := by
  induction bs generalizing pre total with
  | nil => simp
  | cons b bs ih =>
    simp only [List.foldl_cons, List.length_cons] at h ⊢
    rw [put_written pre total b (by omega)]
    have hlen : pre.length + 1 = (pre ++ [b]).length := by simp
    rw [hlen, ih (pre ++ [b]) (total - 1) (by omega)]
    refine Prod.ext ?_ ?_
    · simp [Nat.sub_sub, Nat.add_comm]
    · simp only [List.length_append, List.length_cons, List.length_nil]
      omega

theorem append_value_written (width value : Nat) (pre : List Nat) (total : Nat)
    (h : width ≤ total) :
    append_value width value (pre.map some ++ List.replicate total none, pre.length)
      = ((pre ++ write_be width value).map some ++ List.replicate (total - width) none,
          (pre ++ write_be width value).length) := by
  unfold append_value
  rw [copy_written _ _ _ (by rw [write_be_length]; exact h)]
  simp [write_be_length]

theorem append_values_written (values pre : List Nat) (total : Nat)
    (h : 2 * values.length ≤ total) :
    values.foldl (fun s voltage => append_value 2 voltage s)
        (pre.map some ++ List.replicate total none, pre.length)
      = ((pre ++ values.flatMap (write_be 2)).map some
            ++ List.replicate (total - 2 * values.length) none,
          (pre ++ values.flatMap (write_be 2)).length) := by
  induction values generalizing pre total with
  | nil => simp
  | cons v vs ih =>
    simp only [List.foldl_cons, List.length_cons] at h ⊢
    rw [append_value_written 2 v pre total (by omega), ih _ _ (by omega)]
    simp only [List.flatMap_cons, List.append_assoc]
    congr 3
    omega

theorem put_values_written (temps : List Int) (pre : List Nat) (total : Nat)
    (h : temps.length ≤ total) :
    temps.foldl (fun (s : List (Option Nat) × Nat) temperature =>
          (s.1.set s.2 (some (int8_to_uint8 temperature)), s.2 + 1))
        (pre.map some ++ List.replicate total none, pre.length)
      = ((pre ++ temps.map int8_to_uint8).map some
            ++ List.replicate (total - temps.length) none,
          (pre ++ temps.map int8_to_uint8).length) := by
  have := copy_written (temps.map int8_to_uint8) pre total (by simpa using h)
  rw [List.foldl_map] at this
  rw [this]
  simp

/-- The serializer of `i2c_check` writes the snapshot stream of the
specification to the first 57 bytes of the 60-byte buffer. -/
theorem segment_bytes_eq (d : SegmentData) :
    segment_bytes d = ((snapshot_stream d).map some ++ List.replicate 3 none, 57) := by
  have hsize : sizeof_SegmentData = 60 := by decide
  have h0 : (List.replicate 60 (none : Option Nat), 0)
      = ((([] : List Nat)).map some ++ List.replicate 60 none, ([] : List Nat).length) := rfl
  unfold segment_bytes
  simp only [hsize]
  rw [h0, append_value_written 4 _ _ 60 (by omega), append_value_written 2 _ _ _ (by omega),
    append_value_written 2 _ _ _ (by omega), append_value_written 2 _ _ _ (by omega),
    append_values_written _ _ _ (by simp), put_values_written _ _ _ (by simp)]
  simp [snapshot_stream, write_be_length]

theorem snapshot_stream_length (d : SegmentData) : (snapshot_stream d).length = 57 := by
  simp [snapshot_stream, write_be_length]

/-- On a write-type event `i2c_check` yields no command and hands the buffer
of the serializer to `i2c_slave_write`. -/
theorem i2c_check_write (hal : Hal W) (d : SegmentData) (timeout : Nat) (m : Machine W)
    (h : (hal.i2c_slave_accept m.world timeout).1 = I2cStatus.OkWrite) :
    (i2c_check hal d timeout m).1 = none ∧
    (i2c_check hal d timeout m).2.trace
      = m.trace ++ [Event.i2c_slave_accept timeout,
          Event.i2c_slave_write (segment_bytes d).1 1] := by
  simp [i2c_check, h]

/-- C2: on a write-type event the buffer that `i2c_check` hands to
`i2c_slave_write` holds, most significant byte first, `thermistor_bitset` in
bytes 0-3, `cell_tap_bitset` in bytes 4-5, `degraded_bitset` in bytes 6-7,
`rail_voltage` in bytes 8-9, `voltages[i]` in bytes `10 + 2 i` and `11 + 2 i`,
and `temperatures[j]` as a two's-complement byte in byte `34 + j`. -/
theorem i2c_check_snapshot_layout (hal : Hal W) (d : SegmentData) (timeout : Nat)
    (m : Machine W) (h : (hal.i2c_slave_accept m.world timeout).1 = I2cStatus.OkWrite) :
    ∃ bytes : List (Option Nat),
      (i2c_check hal d timeout m).2.trace
        = m.trace ++ [Event.i2c_slave_accept timeout, Event.i2c_slave_write bytes 1] ∧
      bytes[0]? = some (some (d.thermistor_bitset / 2 ^ 24 % 256)) ∧
      bytes[1]? = some (some (d.thermistor_bitset / 2 ^ 16 % 256)) ∧
      bytes[2]? = some (some (d.thermistor_bitset / 2 ^ 8 % 256)) ∧
      bytes[3]? = some (some (d.thermistor_bitset % 256)) ∧
      bytes[4]? = some (some (d.cell_tap_bitset / 2 ^ 8 % 256)) ∧
      bytes[5]? = some (some (d.cell_tap_bitset % 256)) ∧
      bytes[6]? = some (some (d.degraded_bitset / 2 ^ 8 % 256)) ∧
      bytes[7]? = some (some (d.degraded_bitset % 256)) ∧
      bytes[8]? = some (some (d.rail_voltage / 2 ^ 8 % 256)) ∧
      bytes[9]? = some (some (d.rail_voltage % 256)) ∧
      (∀ i : Fin 12,
        bytes[10 + 2 * i.val]? = some (some (d.voltages i / 2 ^ 8 % 256)) ∧
        bytes[11 + 2 * i.val]? = some (some (d.voltages i % 256))) ∧
      (∀ j : Fin 23, bytes[34 + j.val]? = some (some ((d.temperatures j % 256).toNat))) := by
  refine ⟨(segment_bytes d).1, (i2c_check_write hal d timeout m h).2, ?_⟩
  rw [segment_bytes_eq]
  simp only [snapshot_stream, write_be_four, write_be_two, List.ofFn_succ, List.ofFn_zero,
    List.flatMap_cons, List.flatMap_nil, List.map_cons, List.map_nil, List.cons_append,
    List.nil_append, List.append_nil, int8_to_uint8]
  refine ⟨rfl, rfl, rfl, rfl, rfl, rfl, rfl, rfl, rfl, rfl, ?_, ?_⟩
  · intro i
    fin_cases i <;> exact ⟨rfl, rfl⟩
  · intro j
    fin_cases j <;> rfl

/-- Witness for C2: the snapshot of `sample_segment` on a write-type event. -/
theorem i2c_check_snapshot_layout_witness :
    ((fixed_hal none none I2cStatus.OkWrite (I2cStatus.Ok, 0)).i2c_slave_accept
        idle_machine.world 10).1 = I2cStatus.OkWrite ∧
    ∃ bytes : List (Option Nat),
      (i2c_check (fixed_hal none none I2cStatus.OkWrite (I2cStatus.Ok, 0)) sample_segment 10
          idle_machine).2.trace
        = [Event.i2c_slave_accept 10, Event.i2c_slave_write bytes 1] ∧
      bytes[1]? = some (some 0x40) ∧ bytes[3]? = some (some 0x05) ∧
      bytes[4]? = some (some 0x08) ∧ bytes[7]? = some (some 0x00) ∧
      bytes[8]? = some (some 0x82) ∧ bytes[9]? = some (some 0x32) ∧
      bytes[12]? = some (some 0x75) ∧ bytes[13]? = some (some 0x31) ∧
      bytes[34]? = some (some 251) ∧ bytes[56]? = some (some 17) :=
  ⟨rfl,
    (i2c_check_snapshot_layout (fixed_hal none none I2cStatus.OkWrite (I2cStatus.Ok, 0))
        sample_segment 10 idle_machine rfl).imp
      (fun _ h =>
        ⟨h.1, h.2.2.1, h.2.2.2.2.1, h.2.2.2.2.2.1, h.2.2.2.2.2.2.2.2.1,
          h.2.2.2.2.2.2.2.2.2.1, h.2.2.2.2.2.2.2.2.2.2.1,
          (h.2.2.2.2.2.2.2.2.2.2.2.1 1).1, (h.2.2.2.2.2.2.2.2.2.2.2.1 1).2,
          h.2.2.2.2.2.2.2.2.2.2.2.2 0, h.2.2.2.2.2.2.2.2.2.2.2.2 22⟩)⟩

/-- C3 as stated fails: for the boot snapshot the buffer handed to
`i2c_slave_write` has 60 bytes, the first 57 written by the serializer, not 46. -/
theorem i2c_check_snapshot_size_counterexample :
    ∃ bytes : List (Option Nat),
      (i2c_check (fixed_hal none none I2cStatus.OkWrite (I2cStatus.Ok, 0)) SegmentData.boot 10
          idle_machine).2.trace
        = [Event.i2c_slave_accept 10, Event.i2c_slave_write bytes 1] ∧
      bytes = List.replicate 57 (some 0) ++ List.replicate 3 none ∧
      bytes.length ≠ 46 ∧ (segment_bytes SegmentData.boot).2 ≠ 46 := by
  refine ⟨(segment_bytes SegmentData.boot).1,
    (i2c_check_write _ SegmentData.boot 10 idle_machine rfl).2, ?_⟩
  rw [segment_bytes_eq]
  refine ⟨?_, by simp [snapshot_stream_length], by decide⟩
  simp only [snapshot_stream, write_be_four, write_be_two, List.ofFn_succ, List.ofFn_zero,
    List.flatMap_cons, List.flatMap_nil, List.map_cons, List.map_nil, List.cons_append,
    List.nil_append, List.append_nil, int8_to_uint8]
  rfl

/-- C3, amended: on a write-type event the serializer of `i2c_check` writes
exactly 57 bytes (4 + 2 + 2 + 2 + 12 * 2 + 23), at offsets 0 to 56 of the buffer
handed to `i2c_slave_write`, and that buffer has `sizeof(bms::SegmentData)`
bytes, 60 under natural alignment. -/
theorem i2c_check_snapshot_size (hal : Hal W) (d : SegmentData) (timeout : Nat)
    (m : Machine W) (h : (hal.i2c_slave_accept m.world timeout).1 = I2cStatus.OkWrite) :
    ∃ bytes : List (Option Nat),
      (i2c_check hal d timeout m).2.trace
        = m.trace ++ [Event.i2c_slave_accept timeout, Event.i2c_slave_write bytes 1] ∧
      bytes.length = sizeof_SegmentData ∧ sizeof_SegmentData = 60 ∧
      (segment_bytes d).2 = 57 ∧
      (∀ k, k < 57 → ∃ b, bytes[k]? = some (some b)) := by
  refine ⟨(segment_bytes d).1, (i2c_check_write hal d timeout m h).2, ?_⟩
  have hsize : sizeof_SegmentData = 60 := by decide
  rw [segment_bytes_eq, hsize]
  refine ⟨by simp [snapshot_stream_length], rfl, rfl, ?_⟩
  intro k hk
  have hlt : k < (snapshot_stream d).length := by rw [snapshot_stream_length]; exact hk
  refine ⟨(snapshot_stream d)[k], ?_⟩
  rw [List.getElem?_append_left (by simpa using hlt)]
  simp [List.getElem?_eq_getElem hlt]

/-- Witness for C3 (amended): the boot snapshot on a write-type event. -/
theorem i2c_check_snapshot_size_witness :
    ((fixed_hal none none I2cStatus.OkWrite (I2cStatus.Ok, 0)).i2c_slave_accept
        idle_machine.world 10).1 = I2cStatus.OkWrite ∧
    ∃ bytes : List (Option Nat),
      (i2c_check (fixed_hal none none I2cStatus.OkWrite (I2cStatus.Ok, 0)) SegmentData.boot 10
          idle_machine).2.trace
        = [Event.i2c_slave_accept 10, Event.i2c_slave_write bytes 1] ∧
      bytes.length = 60 ∧ (segment_bytes SegmentData.boot).2 = 57 :=
  ⟨rfl,
    (i2c_check_snapshot_size (fixed_hal none none I2cStatus.OkWrite (I2cStatus.Ok, 0))
        SegmentData.boot 10 idle_machine rfl).imp
      (fun _ h => ⟨h.1, h.2.1.trans h.2.2.1, h.2.2.2.1⟩)⟩

/-! ## Bus protocol handler: the command byte -/

/-- C4 as stated fails: on a read-type event with the byte `0x00` or `0xFF`
`i2c_check` yields an engaged optional holding that byte, not an empty one. -/
theorem i2c_check_command_counterexample :
    (i2c_check (fixed_hal none none I2cStatus.OkRead (I2cStatus.Ok, 0x00)) SegmentData.boot 10
        idle_machine).1 = some (Command.mk 0x00) ∧
    (i2c_check (fixed_hal none none I2cStatus.OkRead (I2cStatus.Ok, 0x00)) SegmentData.boot 10
        idle_machine).1 ≠ none ∧
    (i2c_check (fixed_hal none none I2cStatus.OkRead (I2cStatus.Ok, 0xFF)) SegmentData.boot 10
        idle_machine).1 = some (Command.mk 0xFF) ∧
    (i2c_check (fixed_hal none none I2cStatus.OkRead (I2cStatus.Ok, 0xFF)) SegmentData.boot 10
        idle_machine).1 ≠ none := by
  refine ⟨rfl, ?_, rfl, ?_⟩ <;> simp [i2c_check, fixed_hal]

/-- C4, amended: on a read-type event whose one-byte read succeeds with byte
`b`, `i2c_check` yields the command value holding `b`, for every `b`: that is
Disable, Enable, MeasureRail, Sample for `0x10`, `0x20`, `0x30`, `0x40`, and for
every other byte a value that is none of the four enumerators.  It yields no
command when the accept reports neither a read nor a write event, when the byte
read fails, and on every write-type event. -/
theorem i2c_check_command (hal : Hal W) (d : SegmentData) (timeout : Nat) (m : Machine W) :
    ((hal.i2c_slave_accept m.world timeout).1 ≠ I2cStatus.OkRead →
      (hal.i2c_slave_accept m.world timeout).1 ≠ I2cStatus.OkWrite →
      (i2c_check hal d timeout m).1 = none) ∧
    ((hal.i2c_slave_accept m.world timeout).1 = I2cStatus.OkWrite →
      (i2c_check hal d timeout m).1 = none) ∧
    ((hal.i2c_slave_accept m.world timeout).1 = I2cStatus.OkRead →
      (hal.i2c_slave_read (hal.i2c_slave_accept m.world timeout).2 1).1.1 ≠ I2cStatus.Ok →
      (i2c_check hal d timeout m).1 = none) ∧
    (∀ b, (hal.i2c_slave_accept m.world timeout).1 = I2cStatus.OkRead →
      (hal.i2c_slave_read (hal.i2c_slave_accept m.world timeout).2 1).1
        = (I2cStatus.Ok, b) →
      (i2c_check hal d timeout m).1 = some (Command.mk b) ∧
      (b = 0x10 → Command.mk b = Command.Disable) ∧
      (b = 0x20 → Command.mk b = Command.Enable) ∧
      (b = 0x30 → Command.mk b = Command.MeasureRail) ∧
      (b = 0x40 → Command.mk b = Command.Sample) ∧
      (b ≠ 0x10 → b ≠ 0x20 → b ≠ 0x30 → b ≠ 0x40 →
        Command.mk b ≠ Command.Disable ∧ Command.mk b ≠ Command.Enable ∧
        Command.mk b ≠ Command.MeasureRail ∧ Command.mk b ≠ Command.Sample)) := by
  refine ⟨?_, ?_, ?_, ?_⟩
  · intro h1 h2
    simp [i2c_check, h1, h2]
  · intro h
    simp [i2c_check, h]
  · intro h hr
    simp [i2c_check, h, hr]
  · intro b h hr
    refine ⟨by simp [i2c_check, h, hr], ?_, ?_, ?_, ?_, ?_⟩
    · rintro rfl; rfl
    · rintro rfl; rfl
    · rintro rfl; rfl
    · rintro rfl; rfl
    · intro h1 h2 h3 h4
      simp [Command.Disable, Command.Enable, Command.MeasureRail, Command.Sample, h1, h2, h3, h4]

/-- Witness for C4 (amended): the bytes `0x40` and `0x00` on a read-type event,
a failed read, and a write-type event. -/
theorem i2c_check_command_witness :
    (i2c_check (fixed_hal none none I2cStatus.OkRead (I2cStatus.Ok, 0x40)) SegmentData.boot 10
        idle_machine).1 = some Command.Sample ∧
    (i2c_check (fixed_hal none none I2cStatus.OkRead (I2cStatus.Ok, 0x00)) SegmentData.boot 10
        idle_machine).1 = some (Command.mk 0x00) ∧
    (i2c_check (fixed_hal none none I2cStatus.OkRead (I2cStatus.Failure 1, 0x40))
        SegmentData.boot 10 idle_machine).1 = none ∧
    (i2c_check (fixed_hal none none I2cStatus.OkWrite (I2cStatus.Ok, 0x40)) SegmentData.boot 10
        idle_machine).1 = none ∧
    (i2c_check (fixed_hal none none (I2cStatus.Failure 2) (I2cStatus.Ok, 0x40))
        SegmentData.boot 10 idle_machine).1 = none :=
  ⟨((i2c_check_command (fixed_hal none none I2cStatus.OkRead (I2cStatus.Ok, 0x40))
      SegmentData.boot 10 idle_machine).2.2.2 0x40 rfl rfl).1,
   ((i2c_check_command (fixed_hal none none I2cStatus.OkRead (I2cStatus.Ok, 0x00))
      SegmentData.boot 10 idle_machine).2.2.2 0x00 rfl rfl).1,
   (i2c_check_command (fixed_hal none none I2cStatus.OkRead (I2cStatus.Failure 1, 0x40))
      SegmentData.boot 10 idle_machine).2.2.1 rfl (by decide),
   (i2c_check_command (fixed_hal none none I2cStatus.OkWrite (I2cStatus.Ok, 0x40))
      SegmentData.boot 10 idle_machine).2.1 rfl,
   (i2c_check_command (fixed_hal none none (I2cStatus.Failure 2) (I2cStatus.Ok, 0x40))
      SegmentData.boot 10 idle_machine).1 (by decide) (by decide)⟩

/-! ## Cell sampler -/

/-- C5: `sample_cell_voltage` returns a value exactly when the AFE command
returned `Ready`, the 64-sample ADC read succeeded with mean `v` and range `r`,
and `1000 ≤ v ≤ 44000`; the value is then `(v, r > 10)`, so it lies outside
`[0, 1000)` and outside `(44000, 45000]`. -/
theorem sample_cell_voltage_iff (hal : Hal W) (index : Nat) (m : Machine W)
    (value : Nat × Bool) :
    ((sample_cell_voltage hal index m).1 = some value ↔
      (afe_command hal 0 (index_table.getD index 0 ||| 0b100) m).1 = AfeStatus.Ready ∧
      ∃ v r,
        (hal.sample_voltage (afe_command hal 0 (index_table.getD index 0 ||| 0b100) m).2.world
          k_reference_voltage k_cell_sample_count).1 = some (v, r) ∧
        1000 ≤ v ∧ v ≤ 44000 ∧ value = (v, decide (r > 10))) ∧
    ((sample_cell_voltage hal index m).1 = some value →
      ¬ value.1 < 1000 ∧ ¬ (45000 - 1000 < value.1 ∧ value.1 ≤ 45000)) ∧
    k_reference_voltage = 45000 ∧ k_cell_sample_count = 64 := by
  have key : (sample_cell_voltage hal index m).1 = some value ↔
      (afe_command hal 0 (index_table.getD index 0 ||| 0b100) m).1 = AfeStatus.Ready ∧
      ∃ v r,
        (hal.sample_voltage (afe_command hal 0 (index_table.getD index 0 ||| 0b100) m).2.world
          k_reference_voltage k_cell_sample_count).1 = some (v, r) ∧
        1000 ≤ v ∧ v ≤ 44000 ∧ value = (v, decide (r > 10)) := by
    unfold sample_cell_voltage
    generalize afe_command hal 0 (index_table.getD index 0 ||| 0b100) m = a
    by_cases ha : a.1 = AfeStatus.Ready
    · simp only [ha, ne_eq, not_true_eq_false, if_false, true_and]
      cases hs : (hal.sample_voltage a.2.world k_reference_voltage k_cell_sample_count).1 with
      | none => simp
      | some p =>
        obtain ⟨v, r⟩ := p
        simp only [k_cell_open_threshold, k_reference_voltage, k_cell_degraded_threshold]
        by_cases hv : v < 1000 ∨ v > 45000 - 1000
        · simp only [hv, if_true]
          constructor
          · intro h
            cases h
          · rintro ⟨v', r', h, h1, h2, -⟩
            cases h
            omega
        · simp only [hv, if_false]
          have hmod : v % 65536 = v := Nat.mod_eq_of_lt (by omega)
          rw [hmod]
          constructor
          · intro h
            cases h
            exact ⟨v, r, rfl, by omega, by omega, rfl⟩
          · rintro ⟨v', r', h, -, -, rfl⟩
            cases h
            rfl
    · simp [ha]
  refine ⟨key, ?_, rfl, rfl⟩
  intro h
  obtain ⟨-, v, r, -, h1, h2, rfl⟩ := key.mp h
  simp only
  omega

/-- Witness for C5: a ready AFE and a reading of 3.7 V with a range of 12
counts give a degraded value; a reading of 4.45 V gives no value. -/
theorem sample_cell_voltage_iff_witness :
    (sample_cell_voltage (fixed_hal (some 0xA0) (some (37000, 12)) I2cStatus.Ok (I2cStatus.Ok, 0))
        11 idle_machine).1 = some (37000, true) ∧
    ¬ (sample_cell_voltage
        (fixed_hal (some 0xA0) (some (44500, 12)) I2cStatus.Ok (I2cStatus.Ok, 0))
        11 idle_machine).1 = some (44500, true) :=
  ⟨((sample_cell_voltage_iff
        (fixed_hal (some 0xA0) (some (37000, 12)) I2cStatus.Ok (I2cStatus.Ok, 0)) 11 idle_machine
        (37000, true)).1).mpr
      ⟨rfl, 37000, 12, rfl, by decide, by decide, rfl⟩,
    fun h =>
      absurd
        (((sample_cell_voltage_iff
          (fixed_hal (some 0xA0) (some (44500, 12)) I2cStatus.Ok (I2cStatus.Ok, 0)) 11
          idle_machine (44500, true)).2.1 h).2)
        (by decide)⟩

/-! ## Thermistor sampler -/

/-- The reading behind a value returned by `sample_thermistor`: the range test
on the clamped voltage, with its unsigned 32-bit subtraction, bounds the
unclamped mean on both sides. -/
theorem sample_thermistor_reading (hal : Hal W) (rail_voltage index : Nat) (m : Machine W)
    (t : Int) (hrail : rail_voltage < 65536)
    (h : (sample_thermistor hal rail_voltage index m).1 = some t) :
    ∃ v r,
      (hal.sample_voltage
        (thermistor_enable hal
          (if index ≥ s_mcu_thermistor_enable.length + 8 then ExpanderRegister.ConfigurationPort1
            else ExpanderRegister.ConfigurationPort0) index m).2.world
        k_reference_voltage k_thermistor_sample_count).1 = some (v, r) ∧
      3000 ≤ v ∧ v + 3000 ≤ rail_voltage ∧ r ≤ 1500 ∧ 6000 ≤ rail_voltage := by
  unfold sample_thermistor at h
  simp only [delay_us, Machine.emit] at h
  generalize (if index ≥ s_mcu_thermistor_enable.length + 8
    then ExpanderRegister.ConfigurationPort1 else ExpanderRegister.ConfigurationPort0) = reg at h ⊢
  split at h
  · cases h
  · split at h
    · cases h
    · rename_i v r hs
      refine ⟨v, r, hs, ?_⟩
      split at h
      · cases h
      · split at h
        · cases h
        · rename_i hrange
          split at h
          · cases h
          · rename_i hnoise
            simp only [k_thermistor_range_threshold, k_thermistor_noise_threshold] at hrange hnoise
            by_cases hlow : rail_voltage < 3000
            · exfalso
              apply hrange
              left
              have := Nat.min_le_right v rail_voltage
              omega
            · have hwrap : (rail_voltage + 2 ^ 32 - 3000) % 2 ^ 32 = rail_voltage - 3000 := by
                omega
              rw [hwrap] at hrange
              have h1 := Nat.min_le_right v rail_voltage
              have h2 : min v rail_voltage = v ∨ min v rail_voltage = rail_voltage := by
                rcases Nat.le_total v rail_voltage with hle | hle
                · left; exact Nat.min_eq_left hle
                · right; exact Nat.min_eq_right hle
              rcases h2 with h2 | h2
              · rw [h2] at hrange
                omega
              · rw [h2] at hrange
                omega

/-- C6: if `sample_thermistor` returns a value for a 16-bit rail voltage, the
ADC read succeeded with a mean `v` (before clamping) and a range `r` such that
`3000 ≤ v ≤ rail_voltage - 3000` as true integers and `r ≤ 1500`; in particular
`rail_voltage ≥ 6000`, so no value is returned for a rail below 6000. -/
theorem sample_thermistor_accepts (hal : Hal W) (rail_voltage index : Nat) (m : Machine W)
    (t : Int) (hrail : rail_voltage < 65536)
    (h : (sample_thermistor hal rail_voltage index m).1 = some t) :
    ∃ v r,
      (hal.sample_voltage
        (thermistor_enable hal
          (if index ≥ s_mcu_thermistor_enable.length + 8 then ExpanderRegister.ConfigurationPort1
            else ExpanderRegister.ConfigurationPort0) index m).2.world
        k_reference_voltage k_thermistor_sample_count).1 = some (v, r) ∧
      3000 ≤ v ∧ v + 3000 ≤ rail_voltage ∧ r ≤ 1500 ∧ 6000 ≤ rail_voltage :=
  sample_thermistor_reading hal rail_voltage index m t hrail h

/-- Witness for C6: a rail of 3.333 V and a reading of 1.6665 V on channel 0. -/
theorem sample_thermistor_accepts_witness :
    (33330 < 65536) ∧
    (sample_thermistor (fixed_hal none (some (16665, 100)) I2cStatus.Ok (I2cStatus.Ok, 0))
      33330 0 idle_machine).1 = some 25 ∧
    ∃ v r, some ((16665 : Nat), (100 : Nat)) = some (v, r) ∧
      3000 ≤ v ∧ v + 3000 ≤ 33330 ∧ r ≤ 1500 ∧ 6000 ≤ 33330 :=
  ⟨by decide, rfl,
    sample_thermistor_accepts (fixed_hal none (some (16665, 100)) I2cStatus.Ok (I2cStatus.Ok, 0))
      33330 0 idle_machine 25 (by decide) rfl⟩

/-! ## Bit sets -/

/-- The update `bitset |= 1u << index` of a 32-bit field. -/
theorem testBit_set32 (x index k : Nat) (h : index < 32) :
    ((x ||| (1 <<< index) % 2 ^ 32) % 2 ^ 32).testBit k
      = (decide (k < 32) && (x.testBit k || decide (index = k))) := by
  have h1 : (1 <<< index) % 2 ^ 32 = 2 ^ index := by
    rw [Nat.one_shiftLeft]
    exact Nat.mod_eq_of_lt (Nat.pow_lt_pow_right (by omega) h)
  rw [h1, Nat.testBit_mod_two_pow, Nat.testBit_or, Nat.testBit_two_pow]

/-- The update `bitset |= 1u << index` of a 16-bit field. -/
theorem testBit_set16 (x index k : Nat) (h : index < 16) :
    ((x ||| (1 <<< index) % 2 ^ 32) % 2 ^ 16).testBit k
      = (decide (k < 16) && (x.testBit k || decide (index = k))) := by
  have h1 : (1 <<< index) % 2 ^ 32 = 2 ^ index := by
    rw [Nat.one_shiftLeft]
    exact Nat.mod_eq_of_lt (Nat.pow_lt_pow_right (by omega) (by omega))
  rw [h1, Nat.testBit_mod_two_pow, Nat.testBit_or, Nat.testBit_two_pow]

/-! ## The sample cycle -/

theorem thermistor_machine_before_succ (hal : Hal W) (rail_voltage : Nat) (m : Machine W)
    (n : Nat) :
    thermistor_machine_before hal rail_voltage m (n + 1)
      = (sample_thermistor hal rail_voltage n
          (thermistor_machine_before hal rail_voltage m n)).2 := by
  simp [thermistor_machine_before, List.range_succ, List.foldl_append]

theorem cell_machine_after_succ (hal : Hal W) (m : Machine W) (n : Nat) :
    cell_machine_after hal m (n + 1)
      = (sample_cell_voltage hal (11 - n) (cell_machine_after hal m n)).2 := by
  simp [cell_machine_after, List.range_succ, List.foldl_append]

theorem thermistor_step_none (hal : Hal W) (s : SegmentData × Machine W) (index : Nat)
    (h : (sample_thermistor hal s.1.rail_voltage index s.2).1 = none) :
    thermistor_step hal s index = (s.1, (sample_thermistor hal s.1.rail_voltage index s.2).2) := by
  unfold thermistor_step
  simp only [h]

theorem thermistor_step_some (hal : Hal W) (s : SegmentData × Machine W) (index : Nat)
    (t : Int) (h : (sample_thermistor hal s.1.rail_voltage index s.2).1 = some t) :
    thermistor_step hal s index
      = ({ s.1 with
            thermistor_bitset := (s.1.thermistor_bitset ||| (1 <<< index) % 2 ^ 32) % 2 ^ 32
            temperatures := array_set s.1.temperatures index t },
          (sample_thermistor hal s.1.rail_voltage index s.2).2) := by
  unfold thermistor_step
  simp only [h]

/-- The thermistor loop after `n` iterations, from cleared thermistor data. -/
theorem thermistor_fold (hal : Hal W) (data0 : SegmentData) (m : Machine W)
    (h0 : data0.thermistor_bitset = 0) (ht0 : ∀ k, data0.temperatures k = 0)
    (n : Nat) (hn : n ≤ 32) :
    ((List.range n).foldl (thermistor_step hal) (data0, m)).2
        = thermistor_machine_before hal data0.rail_voltage m n ∧
    ((List.range n).foldl (thermistor_step hal) (data0, m)).1.rail_voltage
        = data0.rail_voltage ∧
    ((List.range n).foldl (thermistor_step hal) (data0, m)).1.cell_tap_bitset
        = data0.cell_tap_bitset ∧
    ((List.range n).foldl (thermistor_step hal) (data0, m)).1.degraded_bitset
        = data0.degraded_bitset ∧
    ((List.range n).foldl (thermistor_step hal) (data0, m)).1.voltages = data0.voltages ∧
    (∀ k, ((List.range n).foldl (thermistor_step hal) (data0, m)).1.thermistor_bitset.testBit k
        = (decide (k < n) && (thermistor_result hal data0.rail_voltage m k).isSome)) ∧
    (∀ k : Fin 23, ((List.range n).foldl (thermistor_step hal) (data0, m)).1.temperatures k
        = if k.val < n then (thermistor_result hal data0.rail_voltage m k.val).getD 0 else 0) := by
  induction n with
  | zero =>
    simp [thermistor_machine_before, h0, ht0]
  | succ n ih =>
    obtain ⟨hm, hr, hc, hd, hv, hb, ht⟩ := ih (by omega)
    rw [List.range_succ, List.foldl_append]
    generalize (List.range n).foldl (thermistor_step hal) (data0, m) = s at hm hr hc hd hv hb ht
    simp only [List.foldl_cons, List.foldl_nil]
    have hres : (sample_thermistor hal s.1.rail_voltage n s.2).1
        = thermistor_result hal data0.rail_voltage m n := by
      rw [hr, hm]; rfl
    have hmach : (sample_thermistor hal s.1.rail_voltage n s.2).2
        = thermistor_machine_before hal data0.rail_voltage m (n + 1) := by
      rw [thermistor_machine_before_succ, hr, hm]
    cases hcase : (sample_thermistor hal s.1.rail_voltage n s.2).1 with
    | none =>
      rw [thermistor_step_none hal s n hcase]
      rw [hres] at hcase
      refine ⟨hmach, hr, hc, hd, hv, ?_, ?_⟩
      · intro k
        rw [hb k]
        by_cases hk : k = n
        · subst hk; simp [hcase]
        · have : (k < n + 1) = (k < n) := by
            apply propext; omega
          simp [this]
      · intro k
        rw [ht k]
        by_cases hk : k.val = n
        · simp [hk, hcase]
        · have : (k.val < n + 1) = (k.val < n) := by
            apply propext; omega
          simp [this]
    | some t =>
      rw [thermistor_step_some hal s n t hcase]
      rw [hres] at hcase
      refine ⟨hmach, hr, hc, hd, hv, ?_, ?_⟩
      · intro k
        simp only []
        rw [testBit_set32 _ _ _ (by omega), hb k]
        by_cases hk : k = n
        · subst hk
          have : k < 32 := by omega
          simp [hcase, this]
        · by_cases hlt : k < n
          · have h32 : k < 32 := by omega
            have hs : k < n + 1 := by omega
            have hne : ¬ n = k := fun h => hk h.symm
            simp [hlt, h32, hs, hne]
          · have hs : ¬ k < n + 1 := by omega
            have hne : ¬ n = k := fun h => hk h.symm
            simp [hlt, hs, hne]
      · intro k
        simp only [array_set]
        by_cases hk : k.val = n
        · simp [hk, hcase]
        · have : (k.val < n + 1) = (k.val < n) := by
            apply propext; omega
          simp [hk, this, ht k]

theorem cell_step_none (hal : Hal W) (s : SegmentData × Machine W) (index : Nat)
    (h : (sample_cell_voltage hal index s.2).1 = none) :
    cell_step hal s index = (s.1, (sample_cell_voltage hal index s.2).2) := by
  unfold cell_step
  simp only [h]

theorem cell_step_some (hal : Hal W) (s : SegmentData × Machine W) (index : Nat)
    (v : Nat) (degraded : Bool) (h : (sample_cell_voltage hal index s.2).1 = some (v, degraded)) :
    cell_step hal s index
      = ({ s.1 with
            cell_tap_bitset := (s.1.cell_tap_bitset ||| (1 <<< index) % 2 ^ 32) % 2 ^ 16
            degraded_bitset :=
              if degraded = true then
                (s.1.degraded_bitset ||| (1 <<< index) % 2 ^ 32) % 2 ^ 16
              else s.1.degraded_bitset
            voltages := array_set s.1.voltages index v },
          (sample_cell_voltage hal index s.2).2) := by
  unfold cell_step
  cases degraded <;> simp [h]

/-- The loop of lines 412-423 visits the indices 11, 10, .., 0 in this order. -/
theorem cell_loop_twelve (hal : Hal W) (s : SegmentData × Machine W) :
    cell_loop hal 12 s = ((List.range 12).map (fun k => 11 - k)).foldl (cell_step hal) s := by
  rfl

/-- The cell loop after `n` iterations, from cleared cell data. -/
theorem cell_fold (hal : Hal W) (data0 : SegmentData) (m : Machine W)
    (h0 : data0.cell_tap_bitset = 0) (hd0 : data0.degraded_bitset = 0)
    (hv0 : ∀ k, data0.voltages k = 0) (n : Nat) (hn : n ≤ 12) :
    (((List.range n).map (fun k => 11 - k)).foldl (cell_step hal) (data0, m)).2
        = cell_machine_after hal m n ∧
    (((List.range n).map (fun k => 11 - k)).foldl (cell_step hal) (data0, m)).1.rail_voltage
        = data0.rail_voltage ∧
    (((List.range n).map (fun k => 11 - k)).foldl (cell_step hal) (data0, m)).1.thermistor_bitset
        = data0.thermistor_bitset ∧
    (((List.range n).map (fun k => 11 - k)).foldl (cell_step hal) (data0, m)).1.temperatures
        = data0.temperatures ∧
    (∀ k, (((List.range n).map (fun k => 11 - k)).foldl (cell_step hal)
          (data0, m)).1.cell_tap_bitset.testBit k
        = (decide (12 - n ≤ k ∧ k < 12) && (cell_result hal m k).isSome)) ∧
    (∀ k, (((List.range n).map (fun k => 11 - k)).foldl (cell_step hal)
          (data0, m)).1.degraded_bitset.testBit k
        = (decide (12 - n ≤ k ∧ k < 12) &&
            decide ((cell_result hal m k).map Prod.snd = some true))) ∧
    (∀ k : Fin 12, (((List.range n).map (fun k => 11 - k)).foldl (cell_step hal)
          (data0, m)).1.voltages k
        = if 12 - n ≤ k.val then ((cell_result hal m k.val).map Prod.fst).getD 0 else 0) := by
  induction n with
  | zero =>
    refine ⟨rfl, rfl, rfl, rfl, ?_, ?_, ?_⟩
    · intro k
      have : ¬ (12 - 0 ≤ k ∧ k < 12) := by omega
      simp [h0, this]
    · intro k
      have : ¬ (12 - 0 ≤ k ∧ k < 12) := by omega
      simp [hd0, this]
    · intro k
      have : ¬ (12 - 0 ≤ k.val) := by omega
      simp [hv0, this]
  | succ n ih =>
    obtain ⟨hm, hr, htb, htt, hb, hd, hv⟩ := ih (by omega)
    rw [List.range_succ, List.map_append, List.foldl_append]
    generalize ((List.range n).map (fun k => 11 - k)).foldl (cell_step hal) (data0, m) = s
      at hm hr htb htt hb hd hv
    simp only [List.map_cons, List.map_nil, List.foldl_cons, List.foldl_nil]
    have hback : 11 - (11 - n) = n := by omega
    have hres : (sample_cell_voltage hal (11 - n) s.2).1 = cell_result hal m (11 - n) := by
      rw [hm]; unfold cell_result; rw [hback]
    have hmach : (sample_cell_voltage hal (11 - n) s.2).2 = cell_machine_after hal m (n + 1) := by
      rw [cell_machine_after_succ, hm]
    have hat : (12 - (n + 1) ≤ 11 - n ∧ 11 - n < 12) := by omega
    have hnot : ¬ (12 - n ≤ 11 - n ∧ 11 - n < 12) := by omega
    have hother : ∀ k, k ≠ 11 - n →
        (decide (12 - (n + 1) ≤ k ∧ k < 12) = decide (12 - n ≤ k ∧ k < 12)) := by
      intro k hk
      apply decide_eq_decide.mpr
      omega
    have hother1 : ∀ k, k ≠ 11 - n → ((12 - (n + 1) ≤ k) = (12 - n ≤ k)) := by
      intro k hk
      apply propext
      omega
    cases hcase : (sample_cell_voltage hal (11 - n) s.2).1 with
    | none =>
      rw [cell_step_none hal s _ hcase]
      rw [hres] at hcase
      refine ⟨hmach, hr, htb, htt, ?_, ?_, ?_⟩
      · intro k
        rw [hb k]
        by_cases hk : k = 11 - n
        · subst hk; simp [hcase, hnot]
        · rw [hother k hk]
      · intro k
        rw [hd k]
        by_cases hk : k = 11 - n
        · subst hk; simp [hcase, hnot]
        · rw [hother k hk]
      · intro k
        rw [hv k]
        by_cases hk : k.val = 11 - n
        · have h1 : ¬ 12 - n ≤ k.val := by omega
          have h2 : 12 - (n + 1) ≤ k.val := by omega
          simp [h1, h2, hk, hcase]
        · simp only [hother1 k.val hk]
    | some sample =>
      obtain ⟨v, degraded⟩ := sample
      rw [cell_step_some hal s _ v degraded hcase]
      rw [hres] at hcase
      refine ⟨hmach, hr, htb, htt, ?_, ?_, ?_⟩
      · intro k
        simp only []
        rw [testBit_set16 _ _ _ (by omega), hb k]
        by_cases hk : k = 11 - n
        · subst hk
          have h16 : 11 - n < 16 := by omega
          simp [hcase, hat, h16]
        · rw [hother k hk]
          have hne : ¬ 11 - n = k := fun h => hk h.symm
          by_cases hrange : 12 - n ≤ k ∧ k < 12
          · have h16 : k < 16 := by omega
            rw [decide_eq_true hrange]
            simp [h16, hne]
          · rw [decide_eq_false hrange]
            simp [hne]
      · intro k
        simp only []
        cases degraded with
        | false =>
          simp only [Bool.false_eq_true, if_false]
          rw [hd k]
          by_cases hk : k = 11 - n
          · subst hk; simp [hcase, hnot]
          · rw [hother k hk]
        | true =>
          simp only [if_true]
          rw [testBit_set16 _ _ _ (by omega), hd k]
          by_cases hk : k = 11 - n
          · subst hk
            have h16 : 11 - n < 16 := by omega
            simp [hcase, hat, h16]
          · rw [hother k hk]
            have hne : ¬ 11 - n = k := fun h => hk h.symm
            by_cases hrange : 12 - n ≤ k ∧ k < 12
            · have h16 : k < 16 := by omega
              rw [decide_eq_true hrange]
              simp [h16, hne]
            · rw [decide_eq_false hrange]
              simp [hne]
      · intro k
        simp only [array_set]
        by_cases hk : k.val = 11 - n
        · have h2 : 12 - (n + 1) ≤ k.val := by omega
          simp [h2, hk, hcase]
        · simp only [hother1 k.val hk]
          simp [hk, hv k]

/-- The order in which the two loops visit their indices. -/
theorem sampling_order :
    List.range k_max_thermistor_count
      = [0, 1, 2, 3, 4, 5, 6, 7, 8, 9, 10, 11, 12, 13, 14, 15, 16, 17, 18, 19, 20, 21, 22] ∧
    (List.range 12).map (fun k => 11 - k) = [11, 10, 9, 8, 7, 6, 5, 4, 3, 2, 1, 0] := by
  constructor <;> decide

/-- Lines 392-401 as a whole: every channel sampled once in ascending order, the
bit set and the temperature stored exactly for the channels that returned a
value, everything else cleared or untouched. -/
theorem sample_thermistors_spec (hal : Hal W) (d : SegmentData) (m : Machine W) :
    (sample_thermistors hal d m).2 = thermistor_machine_before hal d.rail_voltage m 23 ∧
    (sample_thermistors hal d m).1.rail_voltage = d.rail_voltage ∧
    (sample_thermistors hal d m).1.cell_tap_bitset = d.cell_tap_bitset ∧
    (sample_thermistors hal d m).1.degraded_bitset = d.degraded_bitset ∧
    (sample_thermistors hal d m).1.voltages = d.voltages ∧
    (∀ k, (sample_thermistors hal d m).1.thermistor_bitset.testBit k
        = (decide (k < 23) && (thermistor_result hal d.rail_voltage m k).isSome)) ∧
    (∀ k : Fin 23, (sample_thermistors hal d m).1.temperatures k
        = (thermistor_result hal d.rail_voltage m k.val).getD 0) := by
  have h := thermistor_fold hal
    { d with thermistor_bitset := 0, temperatures := fun _ => 0 } m rfl (fun _ => rfl) 23
    (by omega)
  obtain ⟨h1, h2, h3, h4, h5, h6, h7⟩ := h
  refine ⟨h1, h2, h3, h4, h5, h6, ?_⟩
  intro k
  have := h7 k
  rw [if_pos k.isLt] at this
  exact this

/-- Lines 406-423 as a whole: every cell sampled once in the order 11, .., 0,
results stored at the index of the cell. -/
theorem sample_cells_spec (hal : Hal W) (d : SegmentData) (m : Machine W) :
    (sample_cells hal d m).2 = cell_machine_after hal m 12 ∧
    (sample_cells hal d m).1.rail_voltage = d.rail_voltage ∧
    (sample_cells hal d m).1.thermistor_bitset = d.thermistor_bitset ∧
    (sample_cells hal d m).1.temperatures = d.temperatures ∧
    (∀ k, (sample_cells hal d m).1.cell_tap_bitset.testBit k
        = (decide (k < 12) && (cell_result hal m k).isSome)) ∧
    (∀ k, (sample_cells hal d m).1.degraded_bitset.testBit k
        = (decide (k < 12) && decide ((cell_result hal m k).map Prod.snd = some true))) ∧
    (∀ k : Fin 12, (sample_cells hal d m).1.voltages k
        = ((cell_result hal m k.val).map Prod.fst).getD 0) := by
  have h := cell_fold hal
    { d with cell_tap_bitset := 0, degraded_bitset := 0, voltages := fun _ => 0 } m rfl rfl
    (fun _ => rfl) 12 (by omega)
  unfold sample_cells
  rw [cell_loop_twelve]
  obtain ⟨h1, h2, h3, h4, h5, h6, h7⟩ := h
  have hdec : ∀ k, decide (12 - 12 ≤ k ∧ k < 12) = decide (k < 12) := by
    intro k
    apply decide_eq_decide.mpr
    omega
  refine ⟨h1, h2, h3, h4, ?_, ?_, ?_⟩
  · intro k
    rw [h5 k, hdec k]
  · intro k
    rw [h6 k, hdec k]
  · intro k
    have := h7 k
    rw [if_pos (by omega)] at this
    exact this

/-- C7: a Sample cycle samples every thermistor channel once in the order
0, .., 22 and then every cell once in the order 11, .., 0, whatever fails; bit
`j` of `thermistor_bitset` is set iff channel `j` returned a value and
`temperatures[j]` is that value (0 if none); bit `i` of `cell_tap_bitset` is set
iff cell `i` returned a value, `voltages[i]` is that voltage (0 if none), and
bit `i` of `degraded_bitset` is set iff the value came with the degraded flag. -/
theorem sample_all_result (hal : Hal W) (d : SegmentData) (m : Machine W) :
    (sample_all hal d m).2
      = (afe_command hal 0 0b01011010
          (cell_machine_after hal
            (delay_us 1000 (thermistor_machine_before hal d.rail_voltage m 23)) 12)).2 ∧
    (∀ j, j < 23 →
      ((sample_all hal d m).1.thermistor_bitset.testBit j = true ↔
        ∃ t, thermistor_result hal d.rail_voltage m j = some t)) ∧
    (∀ j : Fin 23, (sample_all hal d m).1.temperatures j
        = (thermistor_result hal d.rail_voltage m j.val).getD 0) ∧
    (∀ i, i < 12 →
      ((sample_all hal d m).1.cell_tap_bitset.testBit i = true ↔
        ∃ v g, cell_result hal
          (delay_us 1000 (thermistor_machine_before hal d.rail_voltage m 23)) i = some (v, g)) ∧
      ((sample_all hal d m).1.degraded_bitset.testBit i = true ↔
        ∃ v, cell_result hal
          (delay_us 1000 (thermistor_machine_before hal d.rail_voltage m 23)) i
            = some (v, true))) ∧
    (∀ i : Fin 12, (sample_all hal d m).1.voltages i
        = ((cell_result hal
            (delay_us 1000 (thermistor_machine_before hal d.rail_voltage m 23)) i.val).map
              Prod.fst).getD 0) := by
  obtain ⟨t1, t2, -, -, -, t6, t7⟩ := sample_thermistors_spec hal d m
  obtain ⟨c1, -, c3, c4, c5, c6, c7⟩ :=
    sample_cells_spec hal (sample_thermistors hal d m).1 (delay_us 1000 (sample_thermistors hal d m).2)
  unfold sample_all
  simp only []
  rw [← t1]
  refine ⟨by rw [c1], ?_, ?_, ?_, ?_⟩
  · intro j hj
    rw [c3, t6 j]
    simp [hj, Option.isSome_iff_exists]
  · intro j
    rw [c4, t7 j]
  · intro i hi
    rw [c5 i, c6 i]
    constructor
    · simp [hi, Option.isSome_iff_exists]
    · simp [hi]
  · intro i
    rw [c7 i]

/-- Witness for C7: with the alternating ADC the even thermistor channels and
the even cells return a value, the odd ones do not. -/
theorem sample_all_result_witness :
    (sample_all (alternating_hal 0x40) sample_segment counting_machine).1.thermistor_bitset.testBit
        22 = true ∧
    ¬ (sample_all (alternating_hal 0x40) sample_segment
        counting_machine).1.thermistor_bitset.testBit 21 = true ∧
    (sample_all (alternating_hal 0x40) sample_segment counting_machine).1.temperatures 22 = 25 ∧
    (sample_all (alternating_hal 0x40) sample_segment counting_machine).1.temperatures 21 = 0 ∧
    (sample_all (alternating_hal 0x40) sample_segment counting_machine).1.cell_tap_bitset.testBit
        10 = true ∧
    ¬ (sample_all (alternating_hal 0x40) sample_segment
        counting_machine).1.cell_tap_bitset.testBit 11 = true ∧
    (sample_all (alternating_hal 0x40) sample_segment counting_machine).1.degraded_bitset.testBit
        10 = true ∧
    (sample_all (alternating_hal 0x40) sample_segment counting_machine).1.voltages 10 = 16665 ∧
    (sample_all (alternating_hal 0x40) sample_segment counting_machine).1.voltages 11 = 0 :=
  ⟨((sample_all_result (alternating_hal 0x40) sample_segment counting_machine).2.1 22
      (by decide)).mpr ⟨25, rfl⟩,
   fun h =>
    absurd (((sample_all_result (alternating_hal 0x40) sample_segment counting_machine).2.1 21
      (by decide)).mp h) (by rintro ⟨t, ht⟩; cases ht),
   ((sample_all_result (alternating_hal 0x40) sample_segment counting_machine).2.2.1 22).trans rfl,
   ((sample_all_result (alternating_hal 0x40) sample_segment counting_machine).2.2.1 21).trans rfl,
   ((sample_all_result (alternating_hal 0x40) sample_segment counting_machine).2.2.2.1 10
      (by decide)).1.mpr ⟨16665, true, rfl⟩,
   fun h =>
    absurd (((sample_all_result (alternating_hal 0x40) sample_segment counting_machine).2.2.2.1 11
      (by decide)).1.mp h) (by rintro ⟨v, g, hv⟩; cases hv),
   ((sample_all_result (alternating_hal 0x40) sample_segment counting_machine).2.2.2.1 10
      (by decide)).2.mpr ⟨16665, rfl⟩,
   ((sample_all_result (alternating_hal 0x40) sample_segment counting_machine).2.2.2.2 10).trans rfl,
   ((sample_all_result (alternating_hal 0x40) sample_segment counting_machine).2.2.2.2 11).trans
      rfl⟩

/-! ## The control loop and the rail voltage -/

/-- What one iteration of the loop does to `SegmentData`, by the command
obtained: nothing unless the command is `MeasureRail` or `Sample`. -/
theorem wake_cycle_cases (hal : Hal W) (address fuel : Nat) (d : SegmentData) (m : Machine W)
    (out : SegmentData × Machine W) (h : wake_cycle hal address fuel d m = some out) :
    ((await_command hal address d m).1 ≠ some Command.MeasureRail ∧
      (await_command hal address d m).1 ≠ some Command.Sample ∧ out.1 = d) ∨
    ((await_command hal address d m).1 = some Command.MeasureRail ∧
      ∃ m1, afe_startup_poll hal fuel (wake_adc (await_command hal address d m).2) = some m1 ∧
        out = measure_rail hal d m1) ∨
    ((await_command hal address d m).1 = some Command.Sample ∧
      ∃ m1, afe_startup_poll hal fuel (wake_adc (await_command hal address d m).2) = some m1 ∧
        out = sample_all hal d m1) := by
  unfold wake_cycle at h
  simp only [] at h
  generalize await_command hal address d m = c at h ⊢
  obtain ⟨cmd, mc⟩ := c
  cases cmd with
  | none =>
    simp only [Option.some.injEq] at h
    subst h
    left
    simp
  | some command =>
    simp only [] at h
    by_cases hE : command = Command.Enable
    · rw [if_pos hE] at h
      simp only [Option.some.injEq] at h
      subst h
      subst hE
      left
      refine ⟨fun hc => absurd (Option.some.inj hc) (by decide),
        fun hc => absurd (Option.some.inj hc) (by decide), rfl⟩
    · rw [if_neg hE] at h
      by_cases hD : command = Command.Disable
      · rw [if_pos hD] at h
        simp only [Option.some.injEq] at h
        subst h
        subst hD
        left
        refine ⟨fun hc => absurd (Option.some.inj hc) (by decide),
        fun hc => absurd (Option.some.inj hc) (by decide), rfl⟩
      · rw [if_neg hD] at h
        by_cases hMS : command = Command.MeasureRail ∨ command = Command.Sample
        · rw [if_pos hMS] at h
          cases hp : afe_startup_poll hal fuel (wake_adc mc) with
          | none =>
            rw [hp] at h
            cases h
          | some m1 =>
            rw [hp] at h
            simp only [] at h
            by_cases hM : command = Command.MeasureRail
            · rw [if_pos hM] at h
              simp only [Option.some.injEq] at h
              right
              left
              exact ⟨by rw [hM], m1, rfl, h.symm⟩
            · rw [if_neg hM] at h
              simp only [Option.some.injEq] at h
              have hS : command = Command.Sample := by
                rcases hMS with h1 | h1
                · exact absurd h1 hM
                · exact h1
              right
              right
              exact ⟨by rw [hS], m1, rfl, h.symm⟩
        · rw [if_neg hMS] at h
          simp only [Option.some.injEq] at h
          subst h
          left
          refine ⟨?_, ?_, rfl⟩
          · intro hc
            apply hMS
            left
            exact Option.some.inj hc
          · intro hc
            apply hMS
            right
            exact Option.some.inj hc

/-- The iteration returns as soon as the start-up poll of the AFE finishes. -/
theorem wake_cycle_returns (hal : Hal W) (address fuel : Nat) (d : SegmentData) (m m1 : Machine W)
    (hp : afe_startup_poll hal fuel (wake_adc (await_command hal address d m).2) = some m1) :
    ((await_command hal address d m).1 = some Command.MeasureRail →
      wake_cycle hal address fuel d m = some (measure_rail hal d m1)) ∧
    ((await_command hal address d m).1 = some Command.Sample →
      wake_cycle hal address fuel d m = some (sample_all hal d m1)) := by
  constructor
  · intro hc
    unfold wake_cycle
    simp only [hc, hp]
    rfl
  · intro hc
    unfold wake_cycle
    simp only [hc, hp]
    rfl

theorem measure_rail_data (hal : Hal W) (d : SegmentData) (m : Machine W) :
    (measure_rail hal d m).1 = { d with rail_voltage := 33330 } := by
  unfold measure_rail
  simp only []
  cases (hal.sample_voltage m.world k_reference_voltage k_rail_sample_count).1 <;> rfl

theorem sample_all_rail (hal : Hal W) (d : SegmentData) (m : Machine W) :
    (sample_all hal d m).1.rail_voltage = d.rail_voltage := by
  unfold sample_all
  simp only []
  rw [(sample_cells_spec hal _ _).2.1, (sample_thermistors_spec hal d m).2.1]

/-- C8: a MeasureRail cycle leaves `rail_voltage` equal to 33330 whatever the
ADC returns and leaves every other field unchanged; a Sample cycle leaves
`rail_voltage` unchanged; so in every reachable state `rail_voltage` is 0 or
33330. -/
theorem rail_voltage_cycles (hal : Hal W) (address fuel : Nat) (d : SegmentData)
    (m : Machine W) :
    (∀ m1, (measure_rail hal d m1).1 = { d with rail_voltage := 33330 }) ∧
    (∀ m1, (sample_all hal d m1).1.rail_voltage = d.rail_voltage) ∧
    (∀ out, wake_cycle hal address fuel d m = some out →
      (await_command hal address d m).1 = some Command.MeasureRail →
      out.1 = { d with rail_voltage := 33330 }) ∧
    (∀ out, wake_cycle hal address fuel d m = some out →
      (await_command hal address d m).1 = some Command.Sample →
      out.1.rail_voltage = d.rail_voltage) ∧
    (∀ m1, afe_startup_poll hal fuel (wake_adc (await_command hal address d m).2) = some m1 →
      (await_command hal address d m).1 = some Command.MeasureRail →
      wake_cycle hal address fuel d m = some (measure_rail hal d m1)) ∧
    (∀ d1, Reachable d1 → d1.rail_voltage = 0 ∨ d1.rail_voltage = 33330) := by
  refine ⟨measure_rail_data hal d, sample_all_rail hal d, ?_, ?_, ?_, ?_⟩
  · intro out h hc
    rcases wake_cycle_cases hal address fuel d m out h with h1 | h1 | h1
    · exact absurd hc h1.1
    · obtain ⟨-, m1, -, rfl⟩ := h1
      exact measure_rail_data hal d m1
    · rw [hc] at h1
      exact absurd h1.1 (by decide)
  · intro out h hc
    rcases wake_cycle_cases hal address fuel d m out h with h1 | h1 | h1
    · exact absurd hc h1.2.1
    · rw [hc] at h1
      exact absurd h1.1 (by decide)
    · obtain ⟨-, m1, -, rfl⟩ := h1
      exact sample_all_rail hal d m1
  · intro m1 hp hc
    exact (wake_cycle_returns hal address fuel d m m1 hp).1 hc
  · intro d1 hr
    induction hr with
    | boot => left; rfl
    | cycle hal1 address1 fuel1 data m0 out _ hstep ih =>
      rcases wake_cycle_cases hal1 address1 fuel1 data m0 out hstep with h1 | h1 | h1
      · rw [h1.2.2]; exact ih
      · obtain ⟨-, m1, -, rfl⟩ := h1
        right
        rw [measure_rail_data]
      · obtain ⟨-, m1, -, rfl⟩ := h1
        rw [sample_all_rail]
        exact ih

/-- Witness for C8: a MeasureRail iteration from boot returns after one poll
of the AFE and leaves a rail voltage of 33330. -/
theorem rail_voltage_cycles_witness :
    wake_cycle (alternating_hal 0x30) 0x40 1 SegmentData.boot counting_machine
      = some measured_state ∧
    measured_state.1.rail_voltage = 33330 ∧
    (measure_rail (alternating_hal 0x30) sample_segment counting_machine).1.voltages
      = sample_segment.voltages :=
  ⟨(rail_voltage_cycles (alternating_hal 0x30) 0x40 1 SegmentData.boot
      counting_machine).2.2.2.2.1 _ rfl rfl,
   congrArg SegmentData.rail_voltage
    ((rail_voltage_cycles (alternating_hal 0x30) 0x40 1 SegmentData.boot
      counting_machine).2.2.1 measured_state
      ((rail_voltage_cycles (alternating_hal 0x30) 0x40 1 SegmentData.boot
        counting_machine).2.2.2.2.1 _ rfl rfl) rfl),
   congrArg SegmentData.voltages
    ((rail_voltage_cycles (alternating_hal 0x30) 0x40 1 sample_segment
      counting_machine).1 counting_machine)⟩

/-! ## Invariants of the reachable snapshots -/

/-- The snapshot left by a Sample cycle: the bit sets stay within the channels
in use, a degraded cell is a connected cell, and the entries without a bit are
zero. -/
theorem sample_all_invariant (hal : Hal W) (d : SegmentData) (m : Machine W) :
    (∀ k, 23 ≤ k → (sample_all hal d m).1.thermistor_bitset.testBit k = false) ∧
    (∀ k, 12 ≤ k → (sample_all hal d m).1.cell_tap_bitset.testBit k = false) ∧
    (∀ k, 12 ≤ k → (sample_all hal d m).1.degraded_bitset.testBit k = false) ∧
    (∀ k, (sample_all hal d m).1.degraded_bitset.testBit k = true →
      (sample_all hal d m).1.cell_tap_bitset.testBit k = true) ∧
    (∀ i : Fin 12, (sample_all hal d m).1.cell_tap_bitset.testBit i.val = false →
      (sample_all hal d m).1.voltages i = 0) ∧
    (∀ j : Fin 23, (sample_all hal d m).1.thermistor_bitset.testBit j.val = false →
      (sample_all hal d m).1.temperatures j = 0) := by
  obtain ⟨-, -, -, -, -, t6, t7⟩ := sample_thermistors_spec hal d m
  obtain ⟨-, -, c3, c4, c5, c6, c7⟩ :=
    sample_cells_spec hal (sample_thermistors hal d m).1 (delay_us 1000 (sample_thermistors hal d m).2)
  unfold sample_all
  simp only []
  refine ⟨?_, ?_, ?_, ?_, ?_, ?_⟩
  · intro k hk
    have : ¬ k < 23 := by omega
    rw [c3, t6 k]
    simp [this]
  · intro k hk
    have : ¬ k < 12 := by omega
    rw [c5 k]
    simp [this]
  · intro k hk
    have : ¬ k < 12 := by omega
    rw [c6 k]
    simp [this]
  · intro k
    rw [c5 k, c6 k]
    simp only [Bool.and_eq_true, decide_eq_true_eq]
    rintro ⟨hk, hres⟩
    refine ⟨hk, ?_⟩
    cases hc : cell_result hal (delay_us 1000 (sample_thermistors hal d m).2) k with
    | none => rw [hc] at hres; simp at hres
    | some p => rfl
  · intro i
    rw [c5 i.val, c7 i]
    have hi : i.val < 12 := i.isLt
    cases hc : cell_result hal (delay_us 1000 (sample_thermistors hal d m).2) i.val with
    | none => simp
    | some p => simp [hi]
  · intro j
    rw [c3, c4, t6 j.val, t7 j]
    have hj : j.val < 23 := j.isLt
    cases hc : thermistor_result hal d.rail_voltage m j.val with
    | none => simp
    | some p => simp [hj]

/-- C9: in every snapshot reachable from the boot state, bits 23 and above of
`thermistor_bitset` and bits 12 and above of `cell_tap_bitset` and
`degraded_bitset` are clear, `degraded_bitset` is a subset of `cell_tap_bitset`,
`voltages[i]` is 0 whenever bit `i` of `cell_tap_bitset` is clear, and
`temperatures[j]` is 0 whenever bit `j` of `thermistor_bitset` is clear. -/
theorem reachable_invariant (d : SegmentData) (h : Reachable d) :
    (∀ k, 23 ≤ k → d.thermistor_bitset.testBit k = false) ∧
    (∀ k, 12 ≤ k → d.cell_tap_bitset.testBit k = false) ∧
    (∀ k, 12 ≤ k → d.degraded_bitset.testBit k = false) ∧
    (∀ k, d.degraded_bitset.testBit k = true → d.cell_tap_bitset.testBit k = true) ∧
    (∀ i : Fin 12, d.cell_tap_bitset.testBit i.val = false → d.voltages i = 0) ∧
    (∀ j : Fin 23, d.thermistor_bitset.testBit j.val = false → d.temperatures j = 0) := by
  induction h with
  | boot =>
    refine ⟨?_, ?_, ?_, ?_, ?_, ?_⟩ <;> intros <;> simp_all [SegmentData.boot]
  | cycle hal address fuel data m out _ hstep ih =>
    rcases wake_cycle_cases hal address fuel data m out hstep with h1 | h1 | h1
    · rw [h1.2.2]
      exact ih
    · obtain ⟨-, m1, -, rfl⟩ := h1
      rw [measure_rail_data]
      exact ih
    · obtain ⟨-, m1, -, rfl⟩ := h1
      exact sample_all_invariant hal data m1

/-- Witness for C9: the snapshot after a MeasureRail and a Sample iteration
with the alternating ADC has the odd thermistor channels and the odd cells
valid; bit 23 is clear and the entries of channel 0 and cell 0 are zero. -/
theorem reachable_invariant_witness :
    Reachable sampled_state.1 ∧
    sampled_state.1.thermistor_bitset = 0x2AAAAA ∧
    sampled_state.1.cell_tap_bitset = 0xAAA ∧
    sampled_state.1.degraded_bitset = 0xAAA ∧
    sampled_state.1.thermistor_bitset.testBit 23 = false ∧
    sampled_state.1.cell_tap_bitset.testBit 1 = true ∧
    sampled_state.1.voltages 0 = 0 ∧
    sampled_state.1.temperatures 0 = 0 := by
  have hr : Reachable sampled_state.1 :=
    Reachable.cycle (alternating_hal 0x40) 0x40 1 measured_state.1 measured_state.2 sampled_state
      (Reachable.cycle (alternating_hal 0x30) 0x40 1 SegmentData.boot counting_machine
        measured_state Reachable.boot rfl) rfl
  exact ⟨hr, rfl, rfl, rfl,
    (reachable_invariant sampled_state.1 hr).1 23 (by decide),
    (reachable_invariant sampled_state.1 hr).2.2.2.1 1 (by decide),
    (reachable_invariant sampled_state.1 hr).2.2.2.2.1 0 (by decide),
    (reachable_invariant sampled_state.1 hr).2.2.2.2.2 0 (by decide)⟩

/-! ## The temperature of an accepted reading -/

/-- The integer part of the temperature computation: when `sample_thermistor`
returns a value, it is the float expression applied to `1 / beta = 3350` for the
channels 0, 1, 2 and `3950` for the others, and to the resistance
`rail_voltage * 10000 / v - 10000` in integer division, where `v` is the sampled
mean, which the clamp left untouched. -/
theorem sample_thermistor_value (hal : Hal W) (rail_voltage index : Nat) (m : Machine W)
    (t : Int) (hrail : rail_voltage < 65536)
    (h : (sample_thermistor hal rail_voltage index m).1 = some t) :
    ∃ v r,
      (hal.sample_voltage
        (thermistor_enable hal
          (if index ≥ s_mcu_thermistor_enable.length + 8 then ExpanderRegister.ConfigurationPort1
            else ExpanderRegister.ConfigurationPort0) index m).2.world
        k_reference_voltage k_thermistor_sample_count).1 = some (v, r) ∧
      t = hal.beta_temperature (if index < 3 then 3350 else 3950)
        (Int.tdiv ((rail_voltage : Int) * 10000) (v : Int) - 10000) := by
  obtain ⟨v, r, hs, h1, h2, -, -⟩ := sample_thermistor_reading hal rail_voltage index m t hrail h
  refine ⟨v, r, hs, ?_⟩
  unfold sample_thermistor at h
  simp only [delay_us, Machine.emit] at h
  generalize (if index ≥ s_mcu_thermistor_enable.length + 8
    then ExpanderRegister.ConfigurationPort1 else ExpanderRegister.ConfigurationPort0) = reg at h hs
  rw [hs] at h
  simp only [] at h
  have hmin : min v rail_voltage = v := Nat.min_eq_left (by omega)
  rw [hmin] at h
  split at h
  · cases h
  · split at h
    · cases h
    · split at h
      · cases h
      · split at h
        · cases h
        · simp only [Option.some.injEq] at h
          exact h.symm

/-! ## The control loop: dispatch -/

theorem gpio_set_pins_other (p q : Gpio) (m : Machine W) (h : p ≠ q) :
    (gpio_set q m).pins p = m.pins p := by
  simp [gpio_set, Function.update_noteq h]

theorem gpio_reset_pins_other (p q : Gpio) (m : Machine W) (h : p ≠ q) :
    (gpio_reset q m).pins p = m.pins p := by
  simp [gpio_reset, Function.update_noteq h]

theorem configure_output_pins_other (p q : Gpio) (mode : GpioOutputMode)
    (speed : GpioOutputSpeed) (m : Machine W) (h : p ≠ q) :
    (configure_output q mode speed m).pins p = m.pins p := by
  simp [configure_output, gpio_reset, Function.update_noteq h]

theorem configure_input_pins_other (p q : Gpio) (mode : GpioInputMode) (m : Machine W)
    (h : p ≠ q) : (configure_input q mode m).pins p = m.pins p := by
  cases mode <;> simp [configure_input, gpio_set, gpio_reset, Function.update_noteq h]

theorem set_expander_register_pins (hal : Hal W) (reg : ExpanderRegister) (value : Nat)
    (m : Machine W) : (set_expander_register hal reg value m).2.pins = m.pins := by
  unfold set_expander_register
  simp only []
  split
  · rfl
  · split <;> rfl

theorem i2c_check_pins (hal : Hal W) (d : SegmentData) (timeout : Nat) (m : Machine W) :
    (i2c_check hal d timeout m).2.pins = m.pins := by
  unfold i2c_check
  simp only []
  split
  · rfl
  · split
    · split <;> rfl
    · rfl

/-- Lines 298-340 touch no pin other than SCK, MOSI, the two chip selects and
the four I2C pins. -/
theorem await_command_pins (hal : Hal W) (address : Nat) (d : SegmentData) (m : Machine W)
    (p : Gpio)
    (hp : p ∉ [s_sck, s_mosi, s_adc_cs, s_afe_cs, s_scl_1, s_sda_1, s_scl_2, s_sda_2]) :
    (await_command hal address d m).2.pins p = m.pins p := by
  simp only [List.mem_cons, List.mem_singleton, List.not_mem_nil, or_false, not_or] at hp
  obtain ⟨h1, h2, h3, h4, h5, h6, h7, h8⟩ := hp
  unfold await_command
  simp only [List.foldl_cons, List.foldl_nil, set_expander_register_pins, i2c_check_pins,
    Machine.emit, delay_us]
  rw [configure_output_pins_other p _ _ _ _ h8, configure_output_pins_other p _ _ _ _ h7,
    configure_output_pins_other p _ _ _ _ h6, configure_output_pins_other p _ _ _ _ h5]
  simp only []
  rw [configure_input_pins_other p _ _ _ h8, configure_input_pins_other p _ _ _ h7,
    configure_input_pins_other p _ _ _ h6, configure_input_pins_other p _ _ _ h5,
    gpio_set_pins_other p _ _ h3, gpio_reset_pins_other p _ _ h3, gpio_set_pins_other p _ _ h1,
    gpio_set_pins_other p _ _ h4, gpio_set_pins_other p _ _ h3,
    configure_output_pins_other p _ _ _ _ h2, configure_output_pins_other p _ _ _ _ h1,
    i2c_check_pins]

theorem enable_lines_untouched :
    s_afe_en ∉ [s_sck, s_mosi, s_adc_cs, s_afe_cs, s_scl_1, s_sda_1, s_scl_2, s_sda_2] ∧
    s_ref_en ∉ [s_sck, s_mosi, s_adc_cs, s_afe_cs, s_scl_1, s_sda_1, s_scl_2, s_sda_2] ∧
    s_afe_en ≠ s_ref_en := by
  decide

/-- C11: one iteration of the loop leaves `SegmentData` as it was unless the
command obtained is MeasureRail or Sample.  With no command or a byte that is
none of the four commands it returns with the AFE-enable and reference-enable
lines as they were; Enable ends it with `gpio_set` on both lines, both latches
high; Disable ends it with `gpio_reset` on both lines, both latches low. -/
theorem wake_cycle_dispatch (hal : Hal W) (address fuel : Nat) (d : SegmentData)
    (m : Machine W) :
    (∀ out, wake_cycle hal address fuel d m = some out →
      (await_command hal address d m).1 ≠ some Command.MeasureRail →
      (await_command hal address d m).1 ≠ some Command.Sample → out.1 = d) ∧
    ((await_command hal address d m).1 = none →
      ∃ m1, wake_cycle hal address fuel d m = some (d, m1) ∧
        m1.pins s_afe_en = m.pins s_afe_en ∧ m1.pins s_ref_en = m.pins s_ref_en) ∧
    (∀ command, (await_command hal address d m).1 = some command →
      command ≠ Command.Disable → command ≠ Command.Enable →
      command ≠ Command.MeasureRail → command ≠ Command.Sample →
      ∃ m1, wake_cycle hal address fuel d m = some (d, m1) ∧
        m1.pins s_afe_en = m.pins s_afe_en ∧ m1.pins s_ref_en = m.pins s_ref_en) ∧
    ((await_command hal address d m).1 = some Command.Enable →
      ∃ m1, wake_cycle hal address fuel d m = some (d, m1) ∧
        m1.trace = (await_command hal address d m).2.trace
          ++ [Event.gpio_set s_afe_en, Event.gpio_set s_ref_en] ∧
        (m1.pins s_afe_en).level = true ∧ (m1.pins s_ref_en).level = true) ∧
    ((await_command hal address d m).1 = some Command.Disable →
      ∃ m1, wake_cycle hal address fuel d m = some (d, m1) ∧
        m1.trace = (await_command hal address d m).2.trace
          ++ [Event.gpio_reset s_afe_en, Event.gpio_reset s_ref_en] ∧
        (m1.pins s_afe_en).level = false ∧ (m1.pins s_ref_en).level = false) := by
  obtain ⟨ha, hr, hne⟩ := enable_lines_untouched
  refine ⟨?_, ?_, ?_, ?_, ?_⟩
  · intro out h h1 h2
    rcases wake_cycle_cases hal address fuel d m out h with hc | hc | hc
    · exact hc.2.2
    · exact absurd hc.1 h1
    · exact absurd hc.1 h2
  · intro hc
    refine ⟨(await_command hal address d m).2, ?_, await_command_pins hal address d m _ ha,
      await_command_pins hal address d m _ hr⟩
    unfold wake_cycle
    simp only [hc]
  · intro command hc h1 h2 h3 h4
    refine ⟨(await_command hal address d m).2, ?_, await_command_pins hal address d m _ ha,
      await_command_pins hal address d m _ hr⟩
    unfold wake_cycle
    simp only [hc]
    rw [if_neg h2, if_neg h1, if_neg (by rintro (h | h); exact h3 h; exact h4 h)]
  · intro hc
    refine ⟨gpio_set s_ref_en (gpio_set s_afe_en (await_command hal address d m).2), ?_, ?_, ?_, ?_⟩
    · unfold wake_cycle
      simp only [hc]
      rfl
    · simp [gpio_set]
    · rw [gpio_set_pins_other _ _ _ hne]
      simp [gpio_set]
    · simp [gpio_set]
  · intro hc
    refine ⟨gpio_reset s_ref_en (gpio_reset s_afe_en (await_command hal address d m).2),
      ?_, ?_, ?_, ?_⟩
    · unfold wake_cycle
      simp only [hc]
      rfl
    · simp [gpio_reset]
    · rw [gpio_reset_pins_other _ _ _ hne]
      simp [gpio_reset]
    · simp [gpio_reset]

/-- Witness for C11: from boot, the byte `0x20` sets both enable lines, the byte
`0x10` resets them, and the byte `0x55` leaves the lines and the snapshot as
they were. -/
theorem wake_cycle_dispatch_witness :
    (∃ m1, wake_cycle (alternating_hal 0x20) 0x40 0 sample_segment counting_machine
        = some (sample_segment, m1) ∧
      (m1.pins s_afe_en).level = true ∧ (m1.pins s_ref_en).level = true) ∧
    (∃ m1, wake_cycle (alternating_hal 0x10) 0x40 0 sample_segment counting_machine
        = some (sample_segment, m1) ∧
      (m1.pins s_afe_en).level = false ∧ (m1.pins s_ref_en).level = false) ∧
    (∃ m1, wake_cycle (alternating_hal 0x55) 0x40 0 sample_segment counting_machine
        = some (sample_segment, m1) ∧
      m1.pins s_afe_en = counting_machine.pins s_afe_en ∧
      m1.pins s_ref_en = counting_machine.pins s_ref_en) :=
  ⟨((wake_cycle_dispatch (alternating_hal 0x20) 0x40 0 sample_segment
      counting_machine).2.2.2.1 rfl).imp (fun _ h => ⟨h.1, h.2.2⟩),
   ((wake_cycle_dispatch (alternating_hal 0x10) 0x40 0 sample_segment
      counting_machine).2.2.2.2 rfl).imp (fun _ h => ⟨h.1, h.2.2⟩),
   (wake_cycle_dispatch (alternating_hal 0x55) 0x40 0 sample_segment
      counting_machine).2.2.1 (Command.mk 0x55) rfl (by decide) (by decide) (by decide)
      (by decide)⟩

/-! ## Thermistor enable routing -/

theorem master_writes_append (a b : List Event) :
    master_writes (a ++ b) = master_writes a ++ master_writes b := by
  simp [master_writes]

/-- The master writes of one `set_expander_register`: none while the bus is not
idle, else the register address followed by the value narrowed to a byte. -/
theorem set_expander_register_writes (hal : Hal W) (reg : ExpanderRegister) (value : Nat)
    (m : Machine W) :
    master_writes (set_expander_register hal reg value m).2.trace
      = master_writes m.trace ++
        (if (hal.i2c_wait_idle m.world I2cBus.I2C2).1 = I2cStatus.Ok then
          [Event.i2c_master_write I2cBus.I2C2 0x20 [reg.toByte, value % 256]]
        else []) := by
  unfold set_expander_register
  simp only []
  by_cases h1 : (hal.i2c_wait_idle m.world I2cBus.I2C2).1 = I2cStatus.Ok
  · simp only [h1, ne_eq, not_true_eq_false, if_false, if_true]
    split <;> simp [master_writes, Event.is_master_write]
  · simp [h1, master_writes, Event.is_master_write]

theorem set_expander_register_idle (hal : Hal W) (reg : ExpanderRegister) (value : Nat)
    (m : Machine W) (h : (set_expander_register hal reg value m).1 = I2cStatus.Ok) :
    (hal.i2c_wait_idle m.world I2cBus.I2C2).1 = I2cStatus.Ok := by
  unfold set_expander_register at h
  simp only [] at h
  by_cases h1 : (hal.i2c_wait_idle m.world I2cBus.I2C2).1 = I2cStatus.Ok
  · exact h1
  · rw [if_pos h1] at h
    exact absurd h h1

/-- The value of `set_expander_register` matters only modulo 256. -/
theorem set_expander_register_narrow (hal : Hal W) (reg : ExpanderRegister) (value : Nat)
    (m : Machine W) :
    set_expander_register hal reg value m = set_expander_register hal reg (value % 256) m := by
  unfold set_expander_register
  simp only [Nat.mod_mod]

/-- The register chosen by `sample_thermistor` and the byte it writes to enable
a channel 7 .. 22. -/
theorem enable_byte (channel : Nat) (h7 : 7 ≤ channel) (h22 : channel ≤ 22) :
    (if channel ≥ s_mcu_thermistor_enable.length + 8 then ExpanderRegister.ConfigurationPort1
      else ExpanderRegister.ConfigurationPort0) = enable_register channel ∧
    (2 ^ 32 - 1 - (1 <<<
      (if enable_register channel = ExpanderRegister.ConfigurationPort0 then
        (channel + 2 ^ 32 - s_mcu_thermistor_enable.length) % 2 ^ 32
      else (15 + 2 ^ 32 - (channel + 2 ^ 32 - s_mcu_thermistor_enable.length) % 2 ^ 32)
        % 2 ^ 32)) % 2 ^ 32) % 256 = 0xFF - 2 ^ enable_bit channel ∧
    enable_bit channel < 8 := by
  interval_cases channel <;> decide

/-- Enabling a channel 7 .. 22 is one write of the byte with the bit of the
channel clear to the configuration register of the channel. -/
theorem thermistor_enable_expander (hal : Hal W) (channel : Nat) (m : Machine W)
    (h7 : 7 ≤ channel) (h22 : channel ≤ 22) :
    thermistor_enable hal
        (if channel ≥ s_mcu_thermistor_enable.length + 8 then ExpanderRegister.ConfigurationPort1
          else ExpanderRegister.ConfigurationPort0) channel m
      = (decide ((set_expander_register hal (enable_register channel)
            (0xFF - 2 ^ enable_bit channel) m).1 = I2cStatus.Ok),
          (set_expander_register hal (enable_register channel)
            (0xFF - 2 ^ enable_bit channel) m).2) := by
  obtain ⟨hreg, hbyte, -⟩ := enable_byte channel h7 h22
  rw [hreg]
  unfold thermistor_enable
  have hlen : ¬ channel < s_mcu_thermistor_enable.length := by
    simp [s_mcu_thermistor_enable]
    omega
  rw [if_neg hlen]
  simp only []
  rw [set_expander_register_narrow, hbyte]

/-- Disabling a channel 7 .. 22 is one write of `0xFF` to the register given. -/
theorem thermistor_disable_expander (hal : Hal W) (reg : ExpanderRegister) (channel : Nat)
    (m : Machine W) (h7 : 7 ≤ channel) :
    thermistor_disable hal reg channel m
      = (decide ((set_expander_register hal reg 0xff m).1 = I2cStatus.Ok),
          (set_expander_register hal reg 0xff m).2) := by
  unfold thermistor_disable
  have hlen : ¬ channel < s_mcu_thermistor_enable.length := by
    simp [s_mcu_thermistor_enable]
    omega
  rw [if_neg hlen]

/-- The machine left by `sample_thermistor`: the one after the enable step when
that step fails; the one after the ADC read when the read fails; else the one
after the disable step. -/
theorem sample_thermistor_machine (hal : Hal W) (rail_voltage index : Nat) (m : Machine W)
    (reg : ExpanderRegister)
    (hreg : reg = (if index ≥ s_mcu_thermistor_enable.length + 8
      then ExpanderRegister.ConfigurationPort1 else ExpanderRegister.ConfigurationPort0)) :
    ((thermistor_enable hal reg index m).1 = false →
      (sample_thermistor hal rail_voltage index m).2 = (thermistor_enable hal reg index m).2) ∧
    ((thermistor_enable hal reg index m).1 = true →
      (hal.sample_voltage (thermistor_enable hal reg index m).2.world k_reference_voltage
        k_thermistor_sample_count).1 = none →
      (sample_thermistor hal rail_voltage index m).2
        = { (thermistor_enable hal reg index m).2 with
            world := (hal.sample_voltage (thermistor_enable hal reg index m).2.world
              k_reference_voltage k_thermistor_sample_count).2
            trace := (thermistor_enable hal reg index m).2.trace ++
              [Event.delay_us 5,
                Event.sample_voltage k_reference_voltage k_thermistor_sample_count] }) ∧
    ((thermistor_enable hal reg index m).1 = true →
      (hal.sample_voltage (thermistor_enable hal reg index m).2.world k_reference_voltage
        k_thermistor_sample_count).1 ≠ none →
      (sample_thermistor hal rail_voltage index m).2
        = (thermistor_disable hal reg index
            { (thermistor_enable hal reg index m).2 with
              world := (hal.sample_voltage (thermistor_enable hal reg index m).2.world
                k_reference_voltage k_thermistor_sample_count).2
              trace := (thermistor_enable hal reg index m).2.trace ++
                [Event.delay_us 5,
                  Event.sample_voltage k_reference_voltage k_thermistor_sample_count] }).2) := by
  subst hreg
  unfold sample_thermistor
  simp only [delay_us, Machine.emit]
  generalize (if index ≥ s_mcu_thermistor_enable.length + 8
    then ExpanderRegister.ConfigurationPort1 else ExpanderRegister.ConfigurationPort0) = reg
  refine ⟨?_, ?_, ?_⟩
  · intro he
    rw [if_pos he]
  · intro he hs
    rw [if_neg (by rw [he]; decide)]
    simp [hs]
  · intro he hs
    rw [if_neg (by rw [he]; decide)]
    cases hc : (hal.sample_voltage (thermistor_enable hal reg index m).2.world k_reference_voltage
        k_thermistor_sample_count).1 with
    | none => exact absurd hc hs
    | some p =>
      obtain ⟨v, r⟩ := p
      simp only [List.append_assoc, List.singleton_append]
      split
      · rfl
      · split
        · rfl
        · split <;> rfl

/-- The channels 0 .. 6 are enabled and disabled through their MCU pin, without
any master write. -/
theorem thermistor_mcu_steps (hal : Hal W) (reg : ExpanderRegister) (channel : Nat)
    (m : Machine W) (h : channel < 7) :
    (thermistor_enable hal reg channel m).1 = true ∧
    master_writes (thermistor_enable hal reg channel m).2.trace = master_writes m.trace ∧
    master_writes (thermistor_disable hal reg channel m).2.trace = master_writes m.trace := by
  have hlen : channel < s_mcu_thermistor_enable.length := by
    simp [s_mcu_thermistor_enable]
    omega
  unfold thermistor_enable thermistor_disable
  rw [if_pos hlen, if_pos hlen]
  refine ⟨rfl, ?_, ?_⟩
  · simp [gpio_set, configure_output, gpio_reset, master_writes, Event.is_master_write]
  · simp [configure_input, master_writes, Event.is_master_write]

/-- The master writes of `sample_thermistor` on a channel 7 .. 22: nothing while
the bus is not idle, else the enable byte, followed by the disable byte if the
disable step is reached with an idle bus. -/
theorem sample_thermistor_writes (hal : Hal W) (rail_voltage channel : Nat) (m : Machine W)
    (h7 : 7 ≤ channel) (h22 : channel ≤ 22) :
    ∃ ws, master_writes (sample_thermistor hal rail_voltage channel m).2.trace
        = master_writes m.trace ++ ws ∧
      (ws = [] ∨
        ws = [Event.i2c_master_write I2cBus.I2C2 0x20
          [(enable_register channel).toByte, 0xFF - 2 ^ enable_bit channel]] ∨
        ws = [Event.i2c_master_write I2cBus.I2C2 0x20
            [(enable_register channel).toByte, 0xFF - 2 ^ enable_bit channel],
          Event.i2c_master_write I2cBus.I2C2 0x20 [(enable_register channel).toByte, 0xFF]]) ∧
      ((hal.i2c_wait_idle m.world I2cBus.I2C2).1 = I2cStatus.Ok → ws ≠ []) := by
  obtain ⟨hreg, -, hbit⟩ := enable_byte channel h7 h22
  obtain ⟨hfail, hadc, hdone⟩ :=
    sample_thermistor_machine hal rail_voltage channel m (enable_register channel) hreg.symm
  have hen := thermistor_enable_expander hal channel m h7 h22
  rw [hreg] at hen
  have hbyte : (0xFF - 2 ^ enable_bit channel) % 256 = 0xFF - 2 ^ enable_bit channel :=
    Nat.mod_eq_of_lt (Nat.lt_of_le_of_lt (Nat.sub_le _ _) (by decide))
  have hw := set_expander_register_writes hal (enable_register channel)
    (0xFF - 2 ^ enable_bit channel) m
  rw [hbyte] at hw
  rw [hen] at hfail hadc hdone
  simp only [decide_eq_false_iff_not, decide_eq_true_eq] at hfail hadc hdone
  by_cases hidle : (hal.i2c_wait_idle m.world I2cBus.I2C2).1 = I2cStatus.Ok
  · rw [if_pos hidle] at hw
    by_cases hok : (set_expander_register hal (enable_register channel)
        (0xFF - 2 ^ enable_bit channel) m).1 = I2cStatus.Ok
    · cases hs : (hal.sample_voltage (set_expander_register hal (enable_register channel)
          (0xFF - 2 ^ enable_bit channel) m).2.world k_reference_voltage
          k_thermistor_sample_count).1 with
      | none =>
        refine ⟨_, ?_, Or.inr (Or.inl rfl), fun _ => by simp⟩
        rw [hadc hok hs]
        simp only [master_writes_append, hw]
        simp [master_writes, Event.is_master_write]
      | some p =>
        rw [hdone hok (by rw [hs]; simp),
          thermistor_disable_expander hal _ channel _ h7]
        simp only []
        rw [set_expander_register_writes]
        simp only [master_writes_append, hw]
        split
        · refine ⟨_, ?_, Or.inr (Or.inr rfl), fun _ => by simp⟩
          simp [master_writes, Event.is_master_write]
        · refine ⟨_, ?_, Or.inr (Or.inl rfl), fun _ => by simp⟩
          simp [master_writes, Event.is_master_write]
    · refine ⟨_, ?_, Or.inr (Or.inl rfl), fun _ => by simp⟩
      rw [hfail hok, hw]
  · rw [if_neg hidle] at hw
    have hok : ¬ (set_expander_register hal (enable_register channel)
        (0xFF - 2 ^ enable_bit channel) m).1 = I2cStatus.Ok :=
      fun h => hidle (set_expander_register_idle hal _ _ m h)
    refine ⟨[], ?_, Or.inl rfl, fun h => absurd h hidle⟩
    rw [hfail hok, hw]

/-- C12: the channels 0 .. 6 never write the expander; a channel 7 .. 22 writes
at most the enable byte and then `0xFF` to one and the same configuration
register, and it does write the enable byte when the bus is idle; channel
`7 + k` uses ConfigurationPort0 and the byte with exactly bit `k` clear, channel
`15 + k` uses ConfigurationPort1 and the byte with exactly bit `7 - k` clear;
distinct channels have distinct (register, bit) pairs. -/
theorem thermistor_enable_routing (hal : Hal W) (rail_voltage channel : Nat) (m : Machine W) :
    (channel < 7 →
      master_writes (sample_thermistor hal rail_voltage channel m).2.trace
        = master_writes m.trace) ∧
    (7 ≤ channel → channel ≤ 22 →
      ∃ ws, master_writes (sample_thermistor hal rail_voltage channel m).2.trace
          = master_writes m.trace ++ ws ∧
        (ws = [] ∨
          ws = [Event.i2c_master_write I2cBus.I2C2 0x20
            [(enable_register channel).toByte, 0xFF - 2 ^ enable_bit channel]] ∨
          ws = [Event.i2c_master_write I2cBus.I2C2 0x20
              [(enable_register channel).toByte, 0xFF - 2 ^ enable_bit channel],
            Event.i2c_master_write I2cBus.I2C2 0x20
              [(enable_register channel).toByte, 0xFF]]) ∧
        ((hal.i2c_wait_idle m.world I2cBus.I2C2).1 = I2cStatus.Ok → ws ≠ [])) ∧
    (∀ k, k < 8 →
      enable_register (7 + k) = ExpanderRegister.ConfigurationPort0 ∧
      enable_bit (7 + k) = k ∧
      enable_register (15 + k) = ExpanderRegister.ConfigurationPort1 ∧
      enable_bit (15 + k) = 7 - k ∧
      0xFF - 2 ^ k < 256 ∧
      (∀ j, j < 8 → ((0xFF - 2 ^ k).testBit j = false ↔ j = k))) ∧
    ExpanderRegister.ConfigurationPort0.toByte = 0x06 ∧
    ExpanderRegister.ConfigurationPort1.toByte = 0x07 ∧
    (∀ c1 c2, 7 ≤ c1 → c1 ≤ 22 → 7 ≤ c2 → c2 ≤ 22 →
      enable_register c1 = enable_register c2 → enable_bit c1 = enable_bit c2 → c1 = c2) := by
  refine ⟨?_, sample_thermistor_writes hal rail_voltage channel m, ?_, rfl, rfl, ?_⟩
  · intro h
    have hlen : ¬ channel ≥ s_mcu_thermistor_enable.length + 8 := by
      simp [s_mcu_thermistor_enable]
      omega
    obtain ⟨-, hadc, hdone⟩ :=
      sample_thermistor_machine hal rail_voltage channel m ExpanderRegister.ConfigurationPort0
        (by rw [if_neg hlen])
    obtain ⟨he, hwe, -⟩ :=
      thermistor_mcu_steps hal ExpanderRegister.ConfigurationPort0 channel m h
    cases hs : (hal.sample_voltage
        (thermistor_enable hal ExpanderRegister.ConfigurationPort0 channel m).2.world
        k_reference_voltage k_thermistor_sample_count).1 with
    | none =>
      rw [hadc he hs]
      simp only [master_writes_append, hwe]
      simp [master_writes, Event.is_master_write]
    | some p =>
      rw [hdone he (by rw [hs]; simp),
        (thermistor_mcu_steps hal ExpanderRegister.ConfigurationPort0 channel _ h).2.2]
      simp only [master_writes_append, hwe]
      simp [master_writes, Event.is_master_write]
  · intro k hk
    interval_cases k <;> decide
  · intro c1 c2 h1 h2 h3 h4 hr hb
    unfold enable_register at hr
    unfold enable_bit at hb
    by_cases a1 : c1 < 15 <;> by_cases a2 : c2 < 15 <;>
      simp only [a1, a2, if_true, if_false, reduceCtorEq] at hr hb <;> omega

/-- Witness for C12: channel 15 writes `0x7F` and then `0xFF` to
ConfigurationPort1, channel 7 writes `0xFE` and then `0xFF` to
ConfigurationPort0, channel 3 writes nothing. -/
theorem thermistor_enable_routing_witness :
    (∃ ws, master_writes (sample_thermistor (alternating_hal 0x40) 33330 15
          counting_machine).2.trace = ws ∧
        (ws = [] ∨ ws = [Event.i2c_master_write I2cBus.I2C2 0x20 [0x07, 0x7F]] ∨
          ws = [Event.i2c_master_write I2cBus.I2C2 0x20 [0x07, 0x7F],
            Event.i2c_master_write I2cBus.I2C2 0x20 [0x07, 0xFF]]) ∧ ws ≠ []) ∧
    master_writes (sample_thermistor (alternating_hal 0x40) 33330 15 counting_machine).2.trace
      = [Event.i2c_master_write I2cBus.I2C2 0x20 [0x07, 0x7F],
          Event.i2c_master_write I2cBus.I2C2 0x20 [0x07, 0xFF]] ∧
    master_writes (sample_thermistor (alternating_hal 0x40) 33330 7 counting_machine).2.trace
      = [Event.i2c_master_write I2cBus.I2C2 0x20 [0x06, 0xFE],
          Event.i2c_master_write I2cBus.I2C2 0x20 [0x06, 0xFF]] ∧
    master_writes (sample_thermistor (alternating_hal 0x40) 33330 3 counting_machine).2.trace
      = [] :=
  ⟨((thermistor_enable_routing (alternating_hal 0x40) 33330 15 counting_machine).2.1
      (by decide) (by decide)).imp (fun _ h => ⟨h.1, h.2.1, h.2.2 rfl⟩),
    rfl, rfl,
    (thermistor_enable_routing (alternating_hal 0x40) 33330 3 counting_machine).1 (by decide)⟩

/-! ## The disable step -/

/-- C13 fails on the code: when the ADC read fails, `sample_thermistor` returns
before the disable step.  Channel 0 is left with its MCU pin a push-pull output
driven high and channel 7 with its bit of ConfigurationPort0 still clear (no
write of `0xFF`), and channel 1 is then sampled with channel 0 still enabled. -/
theorem sample_thermistor_adc_failure_skips_disable :
    (sample_thermistor (fixed_hal none none I2cStatus.Ok (I2cStatus.Ok, 0)) 33330 0
        idle_machine).1 = none ∧
    (sample_thermistor (fixed_hal none none I2cStatus.Ok (I2cStatus.Ok, 0)) 33330 0
        idle_machine).2.trace
      = [Event.gpio_configure_output ⟨GpioPort.B, 9⟩ GpioOutputMode.PushPull GpioOutputSpeed.Max2,
          Event.gpio_reset ⟨GpioPort.B, 9⟩, Event.gpio_set ⟨GpioPort.B, 9⟩,
          Event.delay_us 5, Event.sample_voltage 45000 8] ∧
    (sample_thermistor (fixed_hal none none I2cStatus.Ok (I2cStatus.Ok, 0)) 33330 0
        idle_machine).2.pins ⟨GpioPort.B, 9⟩
      = { config := PinConfig.output GpioOutputMode.PushPull GpioOutputSpeed.Max2,
          level := true } ∧
    (sample_thermistor (fixed_hal none none I2cStatus.Ok (I2cStatus.Ok, 0)) 33330 7
        idle_machine).2.trace
      = [Event.i2c_wait_idle I2cBus.I2C2,
          Event.i2c_master_write I2cBus.I2C2 0x20 [0x06, 0xFE],
          Event.i2c_stop I2cBus.I2C2,
          Event.delay_us 5, Event.sample_voltage 45000 8] ∧
    ((thermistor_machine_before (fixed_hal none none I2cStatus.Ok (I2cStatus.Ok, 0)) 33330
        idle_machine 1).pins ⟨GpioPort.B, 9⟩).level = true := by
  refine ⟨rfl, rfl, ?_, rfl, ?_⟩
  · simp [sample_thermistor, thermistor_enable, s_mcu_thermistor_enable, fixed_hal, gpio_set,
      configure_output, gpio_reset, delay_us, Machine.emit, idle_machine]
  · simp [thermistor_machine_before, sample_thermistor, thermistor_enable,
      s_mcu_thermistor_enable, fixed_hal, gpio_set, configure_output, gpio_reset, delay_us,
      Machine.emit, idle_machine, List.range_succ]

/-! ## Safety of the resistance computation -/

/-- The quotient of the resistance computation for a reading inside the guard
bands of a 16-bit rail. -/
theorem resistance_quotient_bounds (rail_voltage v : Nat) (hrail : rail_voltage < 65536)
    (h1 : 3000 ≤ v) (h2 : v + 3000 ≤ rail_voltage) :
    Int.tdiv ((rail_voltage : Int) * 10000) (v : Int)
      = ((rail_voltage * 10000 / v : Nat) : Int) ∧
    10479 ≤ rail_voltage * 10000 / v ∧ rail_voltage * 10000 / v ≤ 218450 := by
  refine ⟨?_, ?_, ?_⟩
  · rw [Int.ofNat_tdiv]
    push_cast
    rfl
  · exact (Nat.le_div_iff_mul_le (by omega)).mpr (by omega)
  · have : rail_voltage * 10000 / v < 218451 :=
      (Nat.div_lt_iff_lt_mul (by omega)).mpr (by omega)
    omega

/-- C14: whenever `sample_thermistor` reaches the resistance computation with a
16-bit rail voltage, the divisor (the clamped voltage) is at least 3000, the
product `rail_voltage * 10000` is at most 655350000 and so below `2 ^ 31`, and
the resistance `rail_voltage * 10000 / voltage - 10000` handed to the
temperature expression lies between 479 and 208450, hence is positive. -/
theorem resistance_safe (hal : Hal W) (rail_voltage index : Nat) (m : Machine W)
    (t : Int) (hrail : rail_voltage < 65536)
    (h : (sample_thermistor hal rail_voltage index m).1 = some t) :
    ∃ v r,
      (hal.sample_voltage
        (thermistor_enable hal
          (if index ≥ s_mcu_thermistor_enable.length + 8 then ExpanderRegister.ConfigurationPort1
            else ExpanderRegister.ConfigurationPort0) index m).2.world
        k_reference_voltage k_thermistor_sample_count).1 = some (v, r) ∧
      3000 ≤ min v rail_voltage ∧
      (rail_voltage : Int) * 10000 ≤ 655350000 ∧ (655350000 : Int) < 2 ^ 31 ∧
      t = hal.beta_temperature (if index < 3 then 3350 else 3950)
        (Int.tdiv ((rail_voltage : Int) * 10000) ((min v rail_voltage : Nat) : Int) - 10000) ∧
      479 ≤ Int.tdiv ((rail_voltage : Int) * 10000) ((min v rail_voltage : Nat) : Int) - 10000 ∧
      Int.tdiv ((rail_voltage : Int) * 10000) ((min v rail_voltage : Nat) : Int) - 10000
        ≤ 208450 := by
  obtain ⟨v, r, hs, h1, h2, -, -⟩ := sample_thermistor_reading hal rail_voltage index m t hrail h
  obtain ⟨v1, r1, hs1, ht⟩ := sample_thermistor_value hal rail_voltage index m t hrail h
  rw [hs] at hs1
  simp only [Option.some.injEq, Prod.mk.injEq] at hs1
  obtain ⟨rfl, rfl⟩ := hs1
  have hmin : min v rail_voltage = v := Nat.min_eq_left (by omega)
  obtain ⟨hq, hlo, hhi⟩ := resistance_quotient_bounds rail_voltage v hrail h1 h2
  refine ⟨v, r, hs, ?_, ?_, by norm_num, ?_, ?_, ?_⟩
  · rw [hmin]; exact h1
  · omega
  · rw [hmin]; exact ht
  · rw [hmin, hq]; omega
  · rw [hmin, hq]; omega

/-- Witness for C14: with a rail of 6.5535 V the largest accepted reading,
6.2535 V, gives the resistance 479 and the smallest, 0.3 V, gives 208450. -/
theorem resistance_safe_witness :
    (65535 < 65536) ∧
    (sample_thermistor (resistance_hal (some (62535, 0))) 65535 0 idle_machine).1 = some 479 ∧
    (sample_thermistor (resistance_hal (some (3000, 0))) 65535 22 idle_machine).1
      = some 208450 ∧
    (∃ v r, some ((62535 : Nat), (0 : Nat)) = some (v, r) ∧
      3000 ≤ min v 65535 ∧
      479 ≤ Int.tdiv ((65535 : Int) * 10000) ((min v 65535 : Nat) : Int) - 10000 ∧
      Int.tdiv ((65535 : Int) * 10000) ((min v 65535 : Nat) : Int) - 10000 ≤ 208450) ∧
    (∃ v r, some ((3000 : Nat), (0 : Nat)) = some (v, r) ∧
      3000 ≤ min v 65535 ∧
      479 ≤ Int.tdiv ((65535 : Int) * 10000) ((min v 65535 : Nat) : Int) - 10000 ∧
      Int.tdiv ((65535 : Int) * 10000) ((min v 65535 : Nat) : Int) - 10000 ≤ 208450) :=
  ⟨by decide, rfl, rfl,
    (resistance_safe (resistance_hal (some (62535, 0))) 65535 0 idle_machine 479 (by decide)
      rfl).imp
      (fun _ hv => hv.imp (fun _ h => ⟨h.1, h.2.1, h.2.2.2.2.2.1, h.2.2.2.2.2.2⟩)),
    (resistance_safe (resistance_hal (some (3000, 0))) 65535 22 idle_machine 208450 (by decide)
      rfl).imp
      (fun _ hv => hv.imp (fun _ h => ⟨h.1, h.2.1, h.2.2.2.2.2.1, h.2.2.2.2.2.2⟩))⟩

end Bms
